import Mathlib

namespace BrandLift

/-!
# Invoice builder: line items, totals, invoice ids and the saved-invoice history

A shallow embedding of `script.js`.  The built-ins the script relies on (Numbers,
`parseInt`, `parseFloat`, `toString`, `split`, `padStart`, `slice`, `localStorage`) are
modelled first, then the functions of the script, then the properties proved of them.
Strings are sequences of code points; every string the script measures is ASCII.
-/

/-! ### Numbers -/

/-- A JavaScript Number: an IEEE-754 binary64 value.  A finite value is `num / 2 ^ exp2`
in lowest terms (`exp2 = 0` or `num` odd); the two zeros are identified. -/
inductive JSNumber where
  | nan
  | infinity (negative : Bool)
  | finite (num : Int) (exp2 : Nat)
  deriving DecidableEq, Repr

namespace JSNumber

/-- The Number `0`. -/
def zero : JSNumber := finite 0 0

/-- The Number `1`. -/
def one : JSNumber := finite 1 0

/-- Counts the binary digits of `n` by halving, `fuel` bounding the number of steps. -/
def bitLengthAux : Nat → Nat → Nat
  | 0, _ => 0
  | fuel + 1, n => if n = 0 then 0 else bitLengthAux fuel (n / 2) + 1

/-- Number of binary digits of `n` (0 for 0). -/
def bitLength (n : Nat) : Nat := bitLengthAux n n

/-- Decides `2 ^ e ≤ N / D` for an integer exponent `e`. -/
def pow2Le (e : Int) (N D : Nat) : Bool :=
  match e with
  | Int.ofNat k => decide (D * 2 ^ k ≤ N)
  | Int.negSucc k => decide (D ≤ N * 2 ^ (k + 1))

/-- The binary exponent `⌊log₂ (N / D)⌋` of a positive fraction. -/
def floorLog2 (N D : Nat) : Int :=
  let e : Int := (bitLength N : Int) - (bitLength D : Int)
  if pow2Le e N D then e else e - 1

/-- Strips common factors of two from `m / 2 ^ k`. -/
def normalize : Nat → Nat → Nat × Nat
  | m, 0 => (m, 0)
  | m, k + 1 => if m % 2 = 0 then normalize (m / 2) k else (m, k + 1)

/-- The integer `m` with the given sign. -/
def signed (negative : Bool) (m : Nat) : Int := if negative then -(m : Int) else (m : Int)

/-- The integer nearest to `num / den`, the even one of the two on a tie. -/
def roundHalfEven (num den : Nat) : Nat :=
  let q := num / den
  let r := num % den
  if den < 2 * r ∨ (2 * r = den ∧ q % 2 = 1) then q + 1 else q

/-- The Number nearest to the exact value `± N / D` (`D > 0`): round to nearest, ties to
even, 53-bit significand, gradual underflow, overflow to infinity.  The value is rounded
to a multiple of `2 ^ u`, `u` being the exponent of its last significand bit. -/
def roundToDouble (negative : Bool) (N D : Nat) : JSNumber :=
  if N = 0 then zero
  else
    match max (floorLog2 N D - 52) (-1074) with
    | Int.ofNat k =>
      let m := roundHalfEven N (D * 2 ^ k)
      -- here `2 ^ 52 ≤ m ≤ 2 ^ 53`, so this test is `2 ^ 1024 ≤ m * 2 ^ k`
      if 971 < k ∨ (k = 971 ∧ 2 ^ 53 ≤ m) then infinity negative
      else finite (signed negative (m * 2 ^ k)) 0
    | Int.negSucc k =>
      let p := normalize (roundHalfEven (N * 2 ^ (k + 1)) D) (k + 1)
      finite (signed negative p.1) p.2

/-- The Number nearest to an integer. -/
def ofInt (z : Int) : JSNumber := roundToDouble (decide (z < 0)) z.natAbs 1

/-- JS `isNaN(x)` on a Number. -/
def isNaN : JSNumber → Bool
  | nan => true
  | _ => false

/-- JS `ToBoolean` on a Number: false for zero and NaN. -/
def toBoolean : JSNumber → Bool
  | nan => false
  | infinity _ => true
  | finite num _ => decide (num ≠ 0)

/-- JS `a + b`. -/
def add : JSNumber → JSNumber → JSNumber
  | nan, _ => nan
  | _, nan => nan
  | infinity s, infinity t => if s = t then infinity s else nan
  | infinity s, finite _ _ => infinity s
  | finite _ _, infinity t => infinity t
  | finite a j, finite b k =>
    let K := max j k
    let z : Int := a * 2 ^ (K - j) + b * 2 ^ (K - k)
    roundToDouble (decide (z < 0)) z.natAbs (2 ^ K)

/-- JS `a * b`. -/
def mul : JSNumber → JSNumber → JSNumber
  | nan, _ => nan
  | _, nan => nan
  | infinity s, infinity t => infinity (xor s t)
  | infinity s, finite b _ => if b = 0 then nan else infinity (xor s (decide (b < 0)))
  | finite a _, infinity t => if a = 0 then nan else infinity (xor (decide (a < 0)) t)
  | finite a j, finite b k =>
    let z : Int := a * b
    roundToDouble (decide (z < 0)) z.natAbs (2 ^ (j + k))

/-- JS `a > b`. -/
def gt : JSNumber → JSNumber → Bool
  | nan, _ => false
  | _, nan => false
  | infinity s, infinity t => !s && t
  | infinity s, finite _ _ => !s
  | finite _ _, infinity t => t
  | finite a j, finite b k => decide (b * 2 ^ j < a * 2 ^ k)

end JSNumber

/-! ### Strings and the built-in conversions -/

/-- `WhiteSpace` and `LineTerminator` code points, which `parseInt` and `parseFloat` skip. -/
def isStrWhiteSpaceChar (c : Char) : Bool :=
  let n := c.toNat
  n = 9 || n = 10 || n = 11 || n = 12 || n = 13 || n = 32 || n = 0xA0 || n = 0x1680 ||
  (0x2000 ≤ n && n ≤ 0x200A) || n = 0x2028 || n = 0x2029 || n = 0x202F || n = 0x205F ||
  n = 0x3000 || n = 0xFEFF

/-- Value of `c` as a digit in the given radix, if it is one. -/
def digitValue (radix : Nat) (c : Char) : Option Nat :=
  let n := c.toNat
  let v := if 48 ≤ n ∧ n ≤ 57 then n - 48
    else if 97 ≤ n ∧ n ≤ 122 then n - 87
    else if 65 ≤ n ∧ n ≤ 90 then n - 55
    else radix
  if v < radix then some v else none

/-- The digits of the longest prefix of `s` made of radix digits. -/
def leadingDigits (radix : Nat) : List Char → List Nat
  | [] => []
  | c :: cs =>
    match digitValue radix c with
    | some v => v :: leadingDigits radix cs
    | none => []

/-- Value of a big-endian digit list. -/
def digitsValue (radix : Nat) (ds : List Nat) : Nat :=
  ds.foldl (fun acc d => acc * radix + d) 0

/-- Takes off a leading sign: whether it was `-`, and the rest. -/
def stripSign : List Char → Bool × List Char
  | '-' :: t => (true, t)
  | '+' :: t => (false, t)
  | s => (false, s)

/-- Takes off a leading `0x` or `0X`: the radix to read in, and the rest. -/
def stripHexMarker : List Char → Nat × List Char
  | '0' :: 'x' :: t => (16, t)
  | '0' :: 'X' :: t => (16, t)
  | s => (10, s)

/-- The mathematical integer that `parseInt(s)` (no radix argument) reads from `s`:
leading white space skipped, an optional sign, an optional `0x`/`0X` prefix, then the
longest run of digits; `none` when that run is empty. -/
def parseIntValue (s : List Char) : Option Int :=
  let t := stripSign (s.dropWhile isStrWhiteSpaceChar)
  let r := stripHexMarker t.2
  let ds := leadingDigits r.1 r.2
  if ds = [] then none
  else some (JSNumber.signed t.1 (digitsValue r.1 ds))

/-- JS `parseInt(s)`: the Number nearest to the integer read, `NaN` when there is none. -/
def parseInt (s : String) : JSNumber :=
  match parseIntValue s.data with
  | none => JSNumber.nan
  | some z => JSNumber.ofInt z

/-- Splits off the exponent part `e[+-]digits` of a decimal literal, if present. -/
def exponentPart : List Char → Int
  | c :: t =>
    if c = 'e' ∨ c = 'E' then
      let st := match t with
        | '-' :: t1 => (true, t1)
        | '+' :: t1 => (false, t1)
        | _ => (false, t)
      let ds := leadingDigits 10 st.2
      if ds = [] then 0 else JSNumber.signed st.1 (digitsValue 10 ds)
    else 0
  | [] => 0

/-- Whether `s` begins with the characters `p`. -/
def startsWith : List Char → List Char → Bool
  | [], _ => true
  | _ :: _, [] => false
  | p :: ps, c :: cs => p = c && startsWith ps cs

/-- JS `parseFloat(s)`: the Number for the longest prefix of the trimmed string that is a
`StrDecimalLiteral`, `NaN` when there is none. -/
def parseFloat (s : String) : JSNumber :=
  let t := stripSign (s.data.dropWhile isStrWhiteSpaceChar)
  if startsWith "Infinity".data t.2 then JSNumber.infinity t.1
  else
    let ip := leadingDigits 10 t.2
    let rest := t.2.drop ip.length
    let fp := match rest with
      | '.' :: r => leadingDigits 10 r
      | _ => []
    let hasDot := match rest with
      | '.' :: _ => true
      | _ => false
    if ip = [] ∧ fp = [] then JSNumber.nan
    else
      let afterMantissa := if hasDot then rest.drop (fp.length + 1) else rest
      let e : Int := exponentPart afterMantissa - (fp.length : Int)
      let m := digitsValue 10 (ip ++ fp)
      match e with
      | Int.ofNat k => JSNumber.roundToDouble t.1 (m * 10 ^ k) 1
      | Int.negSucc k => JSNumber.roundToDouble t.1 m (10 ^ (k + 1))

/-! ### `Number.prototype.toString` -/

/-- Decimal digits of a natural number, most significant first. -/
def decimal (n : Nat) : List Char := Nat.toDigits 10 n

/-- For a fraction below one, the number of zeros between the decimal point and its
first non-zero digit. -/
def leadingZeros : Nat → Nat → Nat → Nat
  | 0, _, _ => 0
  | fuel + 1, N, D => if D ≤ N * 10 then 0 else leadingZeros fuel (N * 10) D + 1

/-- The decimal exponent `n` of a positive fraction: `10 ^ (n - 1) ≤ N / D < 10 ^ n`. -/
def decimalExponent (N D : Nat) : Int :=
  if D ≤ N then ((decimal (N / D)).length : Int)
  else -((leadingZeros 400 N D : Nat) : Int)

/-- A candidate digit string `s * 10 ^ (n - k)` with `k` digits for the value `N / D`,
with its distance from `N / D` as a fraction. -/
structure DigitCandidate where
  s : Nat
  n : Int
  distNum : Nat
  distDen : Nat

/-- The distance between two natural numbers. -/
def natDist (a b : Nat) : Nat := (a - b) + (b - a)

/-- The candidate `s * 10 ^ (n - k)` for the value `N / D`. -/
def mkCandidate (N D s k : Nat) (n : Int) : DigitCandidate :=
  match n - (k : Int) with
  | Int.ofNat d => ⟨s, n, natDist (s * 10 ^ d * D) N, D⟩
  | Int.negSucc d => ⟨s, n, natDist (s * D) (N * 10 ^ (d + 1)), D * 10 ^ (d + 1)⟩

/-- Whether the candidate has exactly `k` digits and reads back as `N / D`. -/
def candidateOk (N D k : Nat) (c : DigitCandidate) : Bool :=
  decide (10 ^ (k - 1) ≤ c.s ∧ c.s < 10 ^ k) &&
  (match c.n - (k : Int) with
    | Int.ofNat d =>
      decide (JSNumber.roundToDouble false (c.s * 10 ^ d) 1 = JSNumber.roundToDouble false N D)
    | Int.negSucc d =>
      decide (JSNumber.roundToDouble false c.s (10 ^ (d + 1)) = JSNumber.roundToDouble false N D))

/-- The candidates with `k` digits around `N / D`, whose decimal exponent is `nx`. -/
def candidates (N D k : Nat) (nx : Int) : List DigitCandidate :=
  let s0 := match nx - (k : Int) with
    | Int.ofNat d => N / (D * 10 ^ d)
    | Int.negSucc d => (N * 10 ^ (d + 1)) / D
  let near := [mkCandidate N D s0 k nx, mkCandidate N D (s0 + 1) k nx]
  (if k = 1 then near ++ [mkCandidate N D 1 k (nx + 1)] else near).filter (candidateOk N D k)

/-- Prefers the candidate nearer to the value, an even `s` on a tie. -/
def better (a b : DigitCandidate) : DigitCandidate :=
  if a.distNum * b.distDen < b.distNum * a.distDen then a
  else if b.distNum * a.distDen < a.distNum * b.distDen then b
  else if a.s % 2 = 0 then a else b

/-- The shortest digit string that reads back as the double `N / D`: tries `k, k+1, …`. -/
def shortestDigits (N D : Nat) (nx : Int) : Nat → Nat → Nat × Nat × Int
  | 0, k => (N / D, k, nx)
  | fuel + 1, k =>
    match candidates N D k nx with
    | [] => shortestDigits N D nx fuel (k + 1)
    | c :: cs => let b := cs.foldl better c; (b.s, k, b.n)

/-- Formatting of `s * 10 ^ (n - k)` as in `Number::toString`. -/
def formatDigits (s k : Nat) (n : Int) : List Char :=
  let ds := decimal s
  if (k : Int) ≤ n ∧ n ≤ 21 then ds ++ List.replicate (n - k).toNat '0'
  else if 0 < n ∧ n ≤ 21 then ds.take n.toNat ++ '.' :: ds.drop n.toNat
  else if -6 < n ∧ n ≤ 0 then '0' :: '.' :: List.replicate (-n).toNat '0' ++ ds
  else
    let e := n - 1
    let ex := 'e' :: (if e < 0 then '-' else '+') :: decimal e.natAbs
    if k = 1 then ds ++ ex else ds.take 1 ++ '.' :: ds.drop 1 ++ ex

/-- JS `x.toString()` for a Number.  Integers of magnitude at most `2 ^ 53` are exactly
representable and print as their decimal expansion; any other finite value prints the
shortest digit string that reads back as the same double. -/
def numberToString : JSNumber → String
  | JSNumber.nan => "NaN"
  | JSNumber.infinity false => "Infinity"
  | JSNumber.infinity true => "-Infinity"
  | JSNumber.finite num exp2 =>
    let sign := if num < 0 then ['-'] else []
    if exp2 = 0 ∧ num.natAbs ≤ 2 ^ 53 then String.mk (sign ++ decimal num.natAbs)
    else
      let N := num.natAbs
      let D := 2 ^ exp2
      let r := shortestDigits N D (decimalExponent N D) 17 1
      String.mk (sign ++ formatDigits r.1 r.2.1 r.2.2)

/-! ### String built-ins -/

/-- Pieces of `s` between the occurrences of `sep`; never empty. -/
def splitChars (sep : Char) : List Char → List (List Char)
  | [] => [[]]
  | c :: cs =>
    if c = sep then [] :: splitChars sep cs
    else
      match splitChars sep cs with
      | [] => [[c]]
      | p :: ps => (c :: p) :: ps

/-- JS `s.split(sep)` for a one-character separator. -/
def split (s : String) (sep : Char) : List String :=
  (splitChars sep s.data).map String.mk

/-- JS `s.padStart(len, c)`. -/
def padStart (s : String) (len : Nat) (c : Char) : String :=
  String.mk (List.replicate (len - s.data.length) c ++ s.data)

/-- JS `s.slice(-n)`: the last `n` characters. -/
def sliceLast (s : String) (n : Nat) : String :=
  String.mk (s.data.drop (s.data.length - n))

/-! ### Data model -/

/-- The value of a numeric field of an item: a Number, or `null`, which is what
`JSON.parse` gives back for a number that was not finite when it was saved. -/
inductive JSValue where
  | null
  | number (x : JSNumber)
  deriving DecidableEq, Repr

/-- JS `ToNumber`, which `*` applies to its operands: `null` counts as 0. -/
def JSValue.toNumber : JSValue → JSNumber
  | JSValue.null => JSNumber.zero
  | JSValue.number x => x

/-- The value `JSON.parse(JSON.stringify(v))`: a finite number comes back as itself,
`NaN` and the infinities are written as `null`, and `null` stays `null`. -/
def JSValue.throughJSON : JSValue → JSValue
  | JSValue.number (JSNumber.finite num exp2) => JSValue.number (JSNumber.finite num exp2)
  | _ => JSValue.null

/-- One line of the invoice being edited. -/
structure LineItem where
  name : String
  price : JSValue
  qty : JSValue
  deriving DecidableEq, Repr

/-- The `initialItem` constant, also the item pushed by the add button. -/
def initialItem : LineItem := ⟨"", JSValue.number JSNumber.zero, JSValue.number JSNumber.one⟩

/-- The item `JSON.parse(JSON.stringify(item))`. -/
def LineItem.throughJSON (item : LineItem) : LineItem :=
  ⟨item.name, item.price.throughJSON, item.qty.throughJSON⟩

/-- A saved invoice, the `invoiceData` object built by `saveInvoice`. -/
structure InvoiceRecord where
  id : String
  date : String
  clientName : String
  clientAddress : String
  items : List LineItem
  savedAt : String
  deriving DecidableEq, Repr

/-- The record `JSON.parse(JSON.stringify(inv))`: the strings come back as they are, the
items as `LineItem.throughJSON` gives them. -/
def InvoiceRecord.throughJSON (inv : InvoiceRecord) : InvoiceRecord :=
  { inv with items := inv.items.map LineItem.throughJSON }

/-- What the script reads of `new Date()`: `getFullYear()` and `getMonth()` (0 to 11).
Years are those of the common era within the range of a JS Date. -/
structure JSDate where
  fullYear : Nat
  month : Fin 12
  fullYear_le : fullYear ≤ 275760
  deriving DecidableEq

/-! ### Storage -/

/-- An exception thrown by a built-in or by the call of an undeclared function. -/
inductive JSError where
  | syntaxError
  | typeError
  | referenceError
  deriving DecidableEq, Repr

/-- The text held by `localStorage` under `brandlift_invoices`.  `json l` is the text
`JSON.stringify(l)`, which writes every number of an item that is not finite as `null`,
so that `JSON.parse` reads it back as `l.map InvoiceRecord.throughJSON`; `malformed` is
any non-empty text that is not JSON, on which `JSON.parse` throws.  Text that is JSON for
something other than an array of invoice records is not represented. -/
inductive StoredText where
  | empty
  | json (invoices : List InvoiceRecord)
  | malformed
  deriving DecidableEq, Repr

/-- The `localStorage` entry `brandlift_invoices`: `none` when the key is absent. -/
abbrev Storage := Option StoredText

/-- The helper `safeStorage.getItem`: `null` when `localStorage.getItem` throws. -/
def safeStorage.getItem (readDenied : Bool) (storage : Storage) : Option StoredText :=
  if readDenied then none else storage

/-- The helper `safeStorage.setItem`: the new storage and whether the write went through. -/
def safeStorage.setItem (writeDenied : Bool) (storage : Storage) (val : StoredText) :
    Storage × Bool :=
  if writeDenied then (storage, false) else (some val, true)

/-- The function `getInvoices`: `stored ? JSON.parse(stored) : []`. -/
def getInvoices (readDenied : Bool) (storage : Storage) : Except JSError (List InvoiceRecord) :=
  match safeStorage.getItem readDenied storage with
  | none => Except.ok []
  | some StoredText.empty => Except.ok []
  | some (StoredText.json invoices) => Except.ok (invoices.map InvoiceRecord.throughJSON)
  | some StoredText.malformed => Except.error JSError.syntaxError

/-! ### Invoice ids -/

/-- One step of the `forEach` in `autoGenerateNextId`: the new `maxNum`. -/
def maxNumStep (maxNum : JSNumber) (inv : InvoiceRecord) : JSNumber :=
  let parts := split inv.id '-'
  if parts.length > 0 then
    let num := parseInt (parts.getD (parts.length - 1) "")
    if !num.isNaN && num.gt maxNum then num else maxNum
  else maxNum

/-- The id `autoGenerateNextId` computes from the invoices it has read. -/
def nextInvoiceId (invoices : List InvoiceRecord) (today : JSDate) : String :=
  if invoices.length = 0 then "BL-25-12-01"
  else
    let maxNum := invoices.foldl maxNumStep JSNumber.zero
    let nextNum := maxNum.add JSNumber.one
    let paddedNum := padStart (numberToString nextNum) 2 '0'
    let yy := sliceLast (numberToString (JSNumber.ofInt today.fullYear)) 2
    let mm := padStart
      (numberToString ((JSNumber.ofInt (today.month.val : Nat)).add JSNumber.one)) 2 '0'
    "BL-" ++ yy ++ "-" ++ mm ++ "-" ++ paddedNum

/-- The function `autoGenerateNextId`: the value it writes to the invoice id field, or
the exception `getInvoices` throws. -/
def autoGenerateNextId (readDenied : Bool) (storage : Storage) (today : JSDate) :
    Except JSError String :=
  match getInvoices readDenied storage with
  | Except.error e => Except.error e
  | Except.ok invoices => Except.ok (nextInvoiceId invoices today)

/-! ### Saving -/

/-- The form fields `saveInvoice` reads. -/
structure InvoiceForm where
  invoiceId : String
  invoiceDate : String
  clientName : String
  clientAddress : String
  deriving DecidableEq, Repr

/-- How a call of `saveInvoice` ends: the missing-id alert, a declined overwrite prompt
(silent return), the saved alert, the storage warning of `safeStorage.setItem`, or an
exception. -/
inductive SaveOutcome where
  | missingId
  | declined
  | saved
  | storageDenied
  | threw (e : JSError)
  deriving DecidableEq, Repr

/-- JS `xs.findIndex(p)`, with `none` for `-1`. -/
def findIndex {α : Type} (p : α → Bool) : List α → Option Nat
  | [] => none
  | a :: as => if p a then some 0 else (findIndex p as).map (fun i => i + 1)

/-- The object `invoiceData` of `saveInvoice`. -/
def invoiceData (form : InvoiceForm) (items : List LineItem) (savedAt : String) :
    InvoiceRecord :=
  ⟨form.invoiceId, form.invoiceDate, form.clientName, form.clientAddress, items, savedAt⟩

/-- The function `saveInvoice`.  `confirm` is the answer to the overwrite prompt, should
it be shown; `readDenied` and `writeDenied` say whether `localStorage` throws on this
call's read and write.  Returns the storage afterwards and how the call ended. -/
def saveInvoice (form : InvoiceForm) (items : List LineItem) (savedAt : String)
    (confirm readDenied writeDenied : Bool) (storage : Storage) : Storage × SaveOutcome :=
  if form.invoiceId = "" then (storage, SaveOutcome.missingId)
  else
    match getInvoices readDenied storage with
    | Except.error e => (storage, SaveOutcome.threw e)
    | Except.ok invoices =>
      let data := invoiceData form items savedAt
      let write := fun (updated : List InvoiceRecord) =>
        let r := safeStorage.setItem writeDenied storage (StoredText.json updated)
        (r.1, if r.2 then SaveOutcome.saved else SaveOutcome.storageDenied)
      match findIndex (fun inv => decide (inv.id = form.invoiceId)) invoices with
      | some existingIndex =>
        if !confirm then (storage, SaveOutcome.declined)
        else write (invoices.set existingIndex data)
      | none => write (invoices ++ [data])

/-- One click on the save button: the inputs of that call of `saveInvoice`. -/
structure SaveCall where
  form : InvoiceForm
  items : List LineItem
  savedAt : String
  confirm : Bool
  readDenied : Bool
  writeDenied : Bool

/-- The storage after a call. -/
def SaveCall.apply (c : SaveCall) (storage : Storage) : Storage :=
  (saveInvoice c.form c.items c.savedAt c.confirm c.readDenied c.writeDenied storage).1

/-- The storage after a sequence of calls of `saveInvoice`. -/
def runSaves (calls : List SaveCall) (storage : Storage) : Storage :=
  calls.foldl (fun st c => c.apply st) storage

/-- The ids of the records held in storage. -/
def storedIds : Storage → List String
  | some (StoredText.json invoices) => invoices.map (fun inv => inv.id)
  | _ => []

/-! ### The invoice being edited -/

/-- The part of the page the handlers below read and write: the item list, the invoice
id field, the grand total written to the preview (`none` while the script has written
none), the amount in the payload of the QR code the script generated last (`none` while
it has generated none), and whether `qrcode.dataset.custom` is `"true"`. -/
structure AppState where
  currentInvoiceItems : List LineItem
  invoiceId : String
  previewTotal : Option JSNumber
  qrAmount : Option JSNumber
  qrCustom : Bool
  deriving DecidableEq, Repr

/-- The function `updateQRCode`: leaves a custom image alone, otherwise generates the QR
code for `amount` (the QR library being loaded). -/
def updateQRCode (amount : JSNumber) (s : AppState) : AppState :=
  if s.qrCustom then s else { s with qrAmount := some amount }

/-- The `grandTotal` accumulated by the loop of `updatePreview`. -/
def grandTotal (items : List LineItem) : JSNumber :=
  items.foldl (fun total item => total.add (item.price.toNumber.mul item.qty.toNumber))
    JSNumber.zero

/-- The function `updatePreview`: shows the grand total and hands it to `updateQRCode`. -/
def updatePreview (s : AppState) : AppState :=
  updateQRCode (grandTotal s.currentInvoiceItems)
    { s with previewTotal := some (grandTotal s.currentInvoiceItems) }

/-- The function `resetQRState`. -/
def resetQRState (s : AppState) : AppState :=
  { s with qrCustom := false }

/-- The field an input of a line-item row edits, read from its class. -/
inductive ItemField where
  | name
  | price
  | qty
  deriving DecidableEq, Repr

/-- The state a handler leaves and the exception that ended it, if any. -/
structure HandlerResult where
  state : AppState
  thrown : Option JSError
  deriving DecidableEq, Repr

/-- The value `parseFloat(value) || 0`. -/
def parseFloatOrZero (value : String) : JSNumber :=
  if (parseFloat value).toBoolean then parseFloat value else JSNumber.zero

/-- The assignment `item[field] = field === 'name' ? value : parseFloat(value) || 0`. -/
def LineItem.assign (item : LineItem) (field : ItemField) (value : String) : LineItem :=
  match field with
  | ItemField.name => { item with name := value }
  | ItemField.price => { item with price := JSValue.number (parseFloatOrZero value) }
  | ItemField.qty => { item with qty := JSValue.number (parseFloatOrZero value) }

/-- The input handler bound by `renderItems`, for the input of row `idx`.  Assigning to
a field of `currentInvoiceItems[idx]` throws a TypeError when there is no such item. -/
def onItemInput (idx : Nat) (field : ItemField) (value : String) (s : AppState) :
    HandlerResult :=
  match s.currentInvoiceItems.get? idx with
  | none => ⟨s, some JSError.typeError⟩
  | some item =>
    ⟨updatePreview
      { s with currentInvoiceItems := s.currentInvoiceItems.set idx (item.assign field value) },
      none⟩

/-- JS `xs.splice(start, 1)`: what is left of `xs`.  A negative `start` counts from the
end; the start is clamped to the list. -/
def splice1 {α : Type} (xs : List α) (start : Int) : List α :=
  let actualStart : Nat :=
    if start < 0 then ((xs.length : Int) + start).toNat else min start.toNat xs.length
  xs.eraseIdx actualStart

/-- The click handler of a remove button, `idx` being `parseInt` of its `data-idx`. -/
def onRemoveClick (idx : Int) (s : AppState) : HandlerResult :=
  ⟨updatePreview { s with currentInvoiceItems := splice1 s.currentInvoiceItems idx }, none⟩

/-- The click handler of the add button. -/
def onAddItemClick (s : AppState) : HandlerResult :=
  ⟨updatePreview
    { s with currentInvoiceItems := s.currentInvoiceItems ++
        [⟨"", JSValue.number JSNumber.zero, JSValue.number JSNumber.one⟩] },
    none⟩

/-- The function `startNewInvoice`: the items are reset and the preview updated, then
the id is generated, then the QR state is reset.  When `getInvoices` throws inside
`autoGenerateNextId` the items and totals have already been reset. -/
def startNewInvoice (readDenied : Bool) (storage : Storage) (today : JSDate) (s : AppState) :
    HandlerResult :=
  let s1 := updatePreview
    { s with currentInvoiceItems := [⟨"", JSValue.number JSNumber.zero, JSValue.number JSNumber.one⟩] }
  match autoGenerateNextId readDenied storage today with
  | Except.error e => ⟨s1, some e⟩
  | Except.ok newId => ⟨resetQRState { s1 with invoiceId := newId }, none⟩

/-- The function `loadInvoice`: the items are the deep copy
`JSON.parse(JSON.stringify(inv.items))`, and the QR state is reset before the preview is
updated. -/
def loadInvoice (inv : InvoiceRecord) (s : AppState) : HandlerResult :=
  ⟨updatePreview
    { s with invoiceId := inv.id,
             currentInvoiceItems := inv.items.map LineItem.throughJSON,
             qrCustom := false },
    none⟩

/-- The call `setupEventListeners()`: the script declares no function of that name, so
the call throws a ReferenceError. -/
def setupEventListeners (s : AppState) : HandlerResult :=
  ⟨s, some JSError.referenceError⟩

/-- The function `initializeDefaults`: pushes the default item when the list is empty,
renders the QR code for the amount 1500, then calls `setupEventListeners`; the bindings
after that call are reached only if it returns. -/
def initializeDefaults (s : AppState) : HandlerResult :=
  let s1 :=
    if s.currentInvoiceItems.length = 0 then
      { s with currentInvoiceItems := s.currentInvoiceItems ++ [initialItem] }
    else s
  setupEventListeners (updateQRCode (JSNumber.ofInt 1500) s1)

/-- The `DOMContentLoaded` handler: `initializeDefaults`, `setupEventListeners`,
`renderItems`, `updatePreview`, `autoGenerateNextId`, inside a `try` whose `catch` shows
an alert, so that an exception ends the handler where it is thrown. -/
def onDOMContentLoaded (readDenied : Bool) (storage : Storage) (today : JSDate)
    (s : AppState) : AppState :=
  let r1 := initializeDefaults s
  match r1.thrown with
  | some _ => r1.state
  | none =>
    let r2 := setupEventListeners r1.state
    match r2.thrown with
    | some _ => r2.state
    | none =>
      let s3 := updatePreview r2.state
      match autoGenerateNextId readDenied storage today with
      | Except.error _ => s3
      | Except.ok newId => { s3 with invoiceId := newId }

/-- The page before the script has run: no item, an empty id field, no total written, no
QR code generated, no custom QR image. -/
def pageBeforeLoad : AppState := ⟨[], "", none, none, false⟩

/-- The state once the `DOMContentLoaded` handler has run. -/
def initialState (readDenied : Bool) (storage : Storage) (today : JSDate) : AppState :=
  onDOMContentLoaded readDenied storage today pageBeforeLoad

/-- The user actions on the invoice being edited. -/
inductive Event where
  | addItem
  | removeItem (idx : Int)
  | setField (idx : Nat) (field : ItemField) (raw : String)
  | startNew (readDenied : Bool) (storage : Storage) (today : JSDate)
  | load (inv : InvoiceRecord)

/-- Runs the handler of an event. -/
def Event.handle : Event → AppState → HandlerResult
  | Event.addItem, s => onAddItemClick s
  | Event.removeItem idx, s => onRemoveClick idx s
  | Event.setField idx field raw, s => onItemInput idx field raw s
  | Event.startNew readDenied storage today, s => startNewInvoice readDenied storage today s
  | Event.load inv, s => loadInvoice inv s

/-- The state after a sequence of events, each handler starting from the state the
previous one left. -/
def run (events : List Event) (s : AppState) : AppState :=
  events.foldl (fun st ev => (ev.handle st).state) s

/-! ### Predicates and sample data used in the statements -/

/-- Reference definition, following the specification: the line total of an item, its
price times its quantity (`null` counting as 0). -/
def LineItem.lineTotal (item : LineItem) : JSNumber :=
  item.price.toNumber.mul item.qty.toNumber

/-- Reference definition: the sum of `f 0`, ..., `f (n - 1)`, added up in that order. -/
def sumUpTo (f : Nat → JSNumber) : Nat → JSNumber
  | 0 => JSNumber.zero
  | n + 1 => (sumUpTo f n).add (f n)

/-- Reference definition, following the specification: the sum over the item list of
price times quantity. -/
def sumOfLineTotals (items : List LineItem) : JSNumber :=
  sumUpTo (fun i => ((items.get? i).map LineItem.lineTotal).getD JSNumber.zero) items.length

/-- The total shown and the amount in the QR code are the sum of price times quantity
over the items, and no custom QR image is in place. -/
def AppState.Fresh (s : AppState) : Prop :=
  s.previewTotal = some (sumOfLineTotals s.currentInvoiceItems) ∧
    s.qrAmount = some (sumOfLineTotals s.currentInvoiceItems) ∧
    s.qrCustom = false

/-- Whether a field value is written by `JSON.stringify` as it is: `null` or a finite
number. -/
def JSValue.isNullOrFinite : JSValue → Bool
  | JSValue.null => true
  | JSValue.number (JSNumber.finite _ _) => true
  | _ => false

/-- An item with an infinite price. -/
def infiniteItem : LineItem :=
  ⟨"Gold", JSValue.number (JSNumber.infinity false), JSValue.number JSNumber.one⟩

/-- A state in which a custom QR image is in place. -/
def customQRState : AppState :=
  ⟨[⟨"a", JSValue.number JSNumber.one, JSValue.number JSNumber.one⟩], "BL-25-12-01",
    some JSNumber.one, none, true⟩

/-- A call that saves a second record next to a stored one. -/
def sampleCall : SaveCall :=
  ⟨⟨"BL-25-12-02", "2025-12-15", "Acme", "1 Main St"⟩, [initialItem], "2025-12-15T10:00:00.000Z",
    false, false, false⟩

/-- A stored record. -/
def sampleRecord : InvoiceRecord :=
  ⟨"BL-25-12-01", "2025-12-01", "Old", "Old St", [], "2025-12-01T10:00:00.000Z"⟩

/-- A form whose id is that of `sampleRecord`. -/
def sampleForm : InvoiceForm := ⟨"BL-25-12-01", "2025-12-15", "Acme", "1 Main St"⟩

/-- JS `x >= 0`. -/
def JSNumber.isNonNegative : JSNumber → Bool
  | JSNumber.nan => false
  | JSNumber.infinity negative => !negative
  | JSNumber.finite num _ => decide (0 ≤ num)

/-- JS `x < 0`, that is `0 > x`. -/
def JSNumber.isNegative (x : JSNumber) : Bool := JSNumber.zero.gt x

/-- The field value is a Number that is at least zero. -/
def JSValue.isNonNegative : JSValue → Bool
  | JSValue.null => false
  | JSValue.number x => x.isNonNegative

/-- Both numbers of the item are at least zero. -/
def LineItem.NonNegative (item : LineItem) : Prop :=
  item.price.isNonNegative = true ∧ item.qty.isNonNegative = true

/-- An event other than a load whose edit of a price or quantity, if it is one, does not
read as a negative number. -/
def Event.NonNegativeEdit : Event → Prop
  | Event.setField _ ItemField.name _ => True
  | Event.setField _ _ raw => (parseFloat raw).isNegative = false
  | Event.load _ => False
  | _ => True

/-- The state of the end-to-end scenario: a new invoice, one more item, then the name,
price and quantity of the first item typed in. -/
def scenarioState (readDenied : Bool) (storage : Storage) (today : JSDate) : AppState :=
  run [Event.startNew readDenied storage today, Event.addItem,
      Event.setField 0 ItemField.name "Service A", Event.setField 0 ItemField.price "100",
      Event.setField 0 ItemField.qty "2"]
    (initialState readDenied storage today)

/-- A state with two items. -/
def twoItems : AppState :=
  ⟨[⟨"a", JSValue.number JSNumber.one, JSValue.number JSNumber.one⟩,
      ⟨"b", JSValue.number JSNumber.one, JSValue.number JSNumber.one⟩], "BL-25-12-01",
    some (JSNumber.ofInt 2), some (JSNumber.ofInt 2), false⟩

/-- The character is one of `0` to `9`. -/
def IsDigit (c : Char) : Prop := 48 ≤ c.toNat ∧ c.toNat ≤ 57

/-! ### The reference id generator -/

namespace InvoiceIdGenerator

/-- Reference definition, following the specification: the trailing segment of an
identifier, what comes after its last `-` (the whole identifier when it has none). -/
def trailingSegment (id : String) : String :=
  String.mk (id.data.reverse.takeWhile (fun c => decide (c ≠ '-'))).reverse

/-- Reference definition, following the specification: the integers parsed from the
trailing segments of the identifiers, the unparsable segments being ignored.  The
specification does not fix the syntax of an integer; the reference reads one as
`parseInt` does, as an exact integer. -/
def parsedSuffixes (existingIds : List String) : List Int :=
  existingIds.filterMap (fun id => parseIntValue (trailingSegment id).data)

/-- Reference definition, following the specification: the largest parsed value, 0 when
there is none. -/
def maxNum (existingIds : List String) : Int :=
  (parsedSuffixes existingIds).max?.getD 0

/-- Reference definition: left-padding with zeros to at least two characters. -/
def zeroPad (s : List Char) : List Char :=
  List.replicate (2 - s.length) '0' ++ s

/-- Reference definition: an integer written in decimal. -/
def intDecimal (z : Int) : List Char :=
  if z < 0 then '-' :: decimal z.natAbs else decimal z.natAbs

/-- Reference definition: the last two digits of the year. -/
def yearDigits (year : Nat) : List Char :=
  (decimal year).drop ((decimal year).length - 2)

/-- Reference definition of `InvoiceIdGenerator.next(existingIds, now)`, following the
specification: the fixed default for an empty collection, otherwise `BL-YY-MM-NN` with
`YY` and `MM` from `now` and `NN` the largest parsed suffix plus one. -/
def next (existingIds : List String) (now : JSDate) : String :=
  if existingIds = [] then "BL-25-12-01"
  else
    String.mk ("BL-".data ++ yearDigits now.fullYear ++ '-' ::
      zeroPad (decimal (now.month.val + 1)) ++ '-' ::
      zeroPad (intDecimal (maxNum existingIds + 1)))

end InvoiceIdGenerator

/-- A record with the given id. -/
def recordWithId (id : String) : InvoiceRecord :=
  ⟨id, "2025-06-01", "Acme", "1 Main St", [], "2025-06-01T10:00:00.000Z"⟩

/-- The first of June 2025. -/
def june2025 : JSDate := ⟨2025, 5, by decide⟩

/-- The fifteenth of December 2025. -/
def december2025 : JSDate := ⟨2025, 11, by decide⟩

/-! ## Properties -/

open InvoiceIdGenerator

/-! ### The grand total -/

theorem sumUpTo_congr (f g : Nat → JSNumber) (n : Nat) (h : ∀ i, i < n → f i = g i) :
    sumUpTo f n = sumUpTo g n := by
  induction n with
  | zero => rfl
  | succ n ih =>
    simp only [sumUpTo]
    rw [ih (fun i hi => h i (Nat.lt_succ_of_lt hi)), h n (Nat.lt_succ_self n)]

theorem grandTotal_append (items : List LineItem) (item : LineItem) :
    grandTotal (items ++ [item]) = (grandTotal items).add item.lineTotal := by
  simp [grandTotal, List.foldl_append, LineItem.lineTotal]

theorem sumOfLineTotals_append (items : List LineItem) (item : LineItem) :
    sumOfLineTotals (items ++ [item]) = (sumOfLineTotals items).add item.lineTotal := by
  unfold sumOfLineTotals
  rw [List.length_append, List.length_singleton]
  simp only [sumUpTo]
  congr 1
  · apply sumUpTo_congr
    intro i hi
    rw [List.get?_eq_getElem?, List.get?_eq_getElem?, List.getElem?_append_left hi]
  · simp

/-- The total the loop of `updatePreview` accumulates is the sum of price times quantity
over the items. -/
theorem grandTotal_eq_sum (items : List LineItem) :
    grandTotal items = sumOfLineTotals items := by
  induction items using List.reverseRecOn with
  | nil => rfl
  | append_singleton items item ih =>
    rw [grandTotal_append, sumOfLineTotals_append, ih]

theorem updatePreview_items (s : AppState) :
    (updatePreview s).currentInvoiceItems = s.currentInvoiceItems := by
  unfold updatePreview updateQRCode
  split <;> rfl

theorem updatePreview_fresh (s : AppState) (h : s.qrCustom = false) :
    (updatePreview s).Fresh := by
  unfold updatePreview updateQRCode AppState.Fresh
  simp [h, grandTotal_eq_sum]

theorem handle_fresh (ev : Event) (s : AppState) (h : s.Fresh) : (ev.handle s).state.Fresh := by
  have hc : s.qrCustom = false := h.2.2
  cases ev with
  | addItem => exact updatePreview_fresh _ hc
  | removeItem idx => exact updatePreview_fresh _ hc
  | setField idx field raw =>
    simp only [Event.handle, onItemInput]
    cases s.currentInvoiceItems.get? idx with
    | none => exact h
    | some item => exact updatePreview_fresh _ hc
  | startNew readDenied storage today =>
    simp only [Event.handle, startNewInvoice]
    have h1 := updatePreview_fresh
      { s with currentInvoiceItems :=
          [⟨"", JSValue.number JSNumber.zero, JSValue.number JSNumber.one⟩] } hc
    cases autoGenerateNextId readDenied storage today with
    | error e => exact h1
    | ok newId => exact ⟨h1.1, h1.2.1, rfl⟩
  | load inv => exact updatePreview_fresh _ rfl

theorem run_fresh (events : List Event) (s : AppState) (h : s.Fresh) : (run events s).Fresh := by
  induction events generalizing s with
  | nil => exact h
  | cons ev evs ih => exact ih _ (handle_fresh ev s h)

/-! ### Saving: lemmas -/

theorem findIndex_eq_none {α : Type} (p : α → Bool) (l : List α) (h : findIndex p l = none) :
    ∀ a ∈ l, p a = false := by
  induction l with
  | nil => intro a ha; cases ha
  | cons b bs ih =>
    intro a ha
    simp only [findIndex] at h
    by_cases hb : p b = true
    · simp [hb] at h
    · simp only [hb, Bool.false_eq_true, if_false, Option.map_eq_none'] at h
      cases ha with
      | head => simpa using hb
      | tail _ hmem => exact ih h a hmem

theorem findIndex_eq_some {α : Type} (p : α → Bool) (l : List α) (i : Nat)
    (h : findIndex p l = some i) :
    ∃ hi : i < l.length, p (l.get ⟨i, hi⟩) = true ∧
      ∀ j (hj : j < l.length), j < i → p (l.get ⟨j, hj⟩) = false := by
  induction l generalizing i with
  | nil => simp [findIndex] at h
  | cons b bs ih =>
    simp only [findIndex] at h
    by_cases hb : p b = true
    · simp only [hb, if_true, Option.some.injEq] at h
      subst h
      exact ⟨by simp, by simpa using hb, fun j _ hj => absurd hj (Nat.not_lt_zero j)⟩
    · simp only [hb, Bool.false_eq_true, if_false, Option.map_eq_some'] at h
      obtain ⟨k, hk, rfl⟩ := h
      obtain ⟨hk1, hk2, hk3⟩ := ih k hk
      refine ⟨by simpa using hk1, by simpa using hk2, ?_⟩
      intro j hj hjk
      cases j with
      | zero => simpa using hb
      | succ j =>
        have := hk3 j (by simpa using hj) (by omega)
        simpa using this

theorem findIndex_isSome_of_mem {α : Type} (p : α → Bool) (l : List α) (a : α) (ha : a ∈ l)
    (hp : p a = true) : ∃ i, findIndex p l = some i := by
  cases h : findIndex p l with
  | none => have := findIndex_eq_none p l h a ha; simp [hp] at this
  | some i => exact ⟨i, rfl⟩

/-- Replacing a record by one of the same id keeps the list of ids. -/
theorem map_id_set (l : List InvoiceRecord) (i : Nat) (hi : i < l.length) (r : InvoiceRecord)
    (h : (l.get ⟨i, hi⟩).id = r.id) :
    (l.set i r).map (fun inv => inv.id) = l.map (fun inv => inv.id) := by
  rw [List.map_set]
  apply List.ext_getElem
  · simp
  · intro n h1 h2
    rw [List.getElem_set]
    split
    · next heq => subst heq; simp at h ⊢; exact h.symm
    · rfl

/-- What `saveInvoice` does to storage: nothing unless it ends in `saved`, and then it
holds the collection read with the new record put in place of the first one of its id,
or appended when there is none. -/
theorem saveInvoice_storage (form : InvoiceForm) (items : List LineItem) (savedAt : String)
    (confirm readDenied writeDenied : Bool) (storage : Storage) :
    ((saveInvoice form items savedAt confirm readDenied writeDenied storage).2
        ≠ SaveOutcome.saved ∧
      (saveInvoice form items savedAt confirm readDenied writeDenied storage).1 = storage) ∨
    ∃ invoices, getInvoices readDenied storage = Except.ok invoices ∧
      (saveInvoice form items savedAt confirm readDenied writeDenied storage).2
        = SaveOutcome.saved ∧
      ((∃ i, ∃ hi : i < invoices.length, (invoices.get ⟨i, hi⟩).id = form.invoiceId ∧
          findIndex (fun inv => decide (inv.id = form.invoiceId)) invoices = some i ∧
          confirm = true ∧
          (saveInvoice form items savedAt confirm readDenied writeDenied storage).1
            = some (StoredText.json (invoices.set i (invoiceData form items savedAt)))) ∨
        ((∀ inv ∈ invoices, inv.id ≠ form.invoiceId) ∧
          (saveInvoice form items savedAt confirm readDenied writeDenied storage).1
            = some (StoredText.json (invoices ++ [invoiceData form items savedAt])))) := by
  unfold saveInvoice
  by_cases hid : form.invoiceId = ""
  · left; simp [hid]
  · simp only [hid, if_false]
    cases hg : getInvoices readDenied storage with
    | error e => left; simp
    | ok invoices =>
      simp only
      cases hf : findIndex (fun inv => decide (inv.id = form.invoiceId)) invoices with
      | some i =>
        obtain ⟨hi, hp, _⟩ := findIndex_eq_some _ _ _ hf
        cases confirm with
        | false => left; simp
        | true =>
          cases writeDenied with
          | true => left; simp [safeStorage.setItem]
          | false =>
            right
            refine ⟨invoices, rfl, rfl, Or.inl ⟨i, hi, by simpa using hp, hf, rfl, rfl⟩⟩
      | none =>
        have hnone := findIndex_eq_none _ _ hf
        cases writeDenied with
        | true => left; simp [safeStorage.setItem]
        | false =>
          right
          refine ⟨invoices, rfl, rfl, Or.inr ⟨?_, rfl⟩⟩
          intro inv hinv
          simpa using hnone inv hinv

theorem throughJSON_id (inv : InvoiceRecord) : inv.throughJSON.id = inv.id := rfl

theorem map_throughJSON_ids (l : List InvoiceRecord) :
    (l.map InvoiceRecord.throughJSON).map (fun inv => inv.id) = l.map (fun inv => inv.id) := by
  rw [List.map_map]
  rfl

/-- What `getInvoices` reads is nothing, or the stored array as `JSON.parse` gives it
back. -/
theorem getInvoices_ids (readDenied : Bool) (storage : Storage) (invoices : List InvoiceRecord)
    (h : getInvoices readDenied storage = Except.ok invoices) :
    invoices = [] ∨
      ∃ l, storage = some (StoredText.json l) ∧ invoices = l.map InvoiceRecord.throughJSON := by
  unfold getInvoices safeStorage.getItem at h
  cases readDenied with
  | true => left; simpa using h.symm
  | false =>
    cases storage with
    | none => left; simpa using h.symm
    | some t =>
      cases t with
      | empty => left; simpa using h.symm
      | json l => right; simp at h; exact ⟨l, rfl, h.symm⟩
      | malformed => simp at h

theorem saveInvoice_nodup (form : InvoiceForm) (items : List LineItem) (savedAt : String)
    (confirm readDenied writeDenied : Bool) (storage : Storage)
    (h : (storedIds storage).Nodup) :
    (storedIds (saveInvoice form items savedAt confirm readDenied writeDenied storage).1).Nodup := by
  rcases saveInvoice_storage form items savedAt confirm readDenied writeDenied storage with
    ⟨_, h1⟩ | ⟨invoices, hg, _, h2⟩
  · rw [h1]; exact h
  · have hinv : (invoices.map (fun inv => inv.id)).Nodup := by
      rcases getInvoices_ids _ _ _ hg with h0 | ⟨l, h0, h1⟩
      · rw [h0]; simp
      · rw [h0] at h
        rw [h1, map_throughJSON_ids]
        exact h
    rcases h2 with ⟨i, hi, hid, _, _, hs⟩ | ⟨hnew, hs⟩
    · rw [hs]
      simp only [storedIds]
      rw [map_id_set invoices i hi _ hid]
      exact hinv
    · rw [hs]
      simp only [storedIds, List.map_append, List.map_cons, List.map_nil]
      rw [List.nodup_append]
      refine ⟨hinv, by simp, ?_⟩
      intro a ha hb
      simp only [List.mem_singleton] at hb
      subst hb
      simp only [List.mem_map] at ha
      obtain ⟨inv, hmem, heq⟩ := ha
      exact hnew inv hmem heq

theorem runSaves_nodup (calls : List SaveCall) (storage : Storage)
    (h : (storedIds storage).Nodup) : (storedIds (runSaves calls storage)).Nodup := by
  induction calls generalizing storage with
  | nil => exact h
  | cons c cs ih =>
    exact ih _ (saveInvoice_nodup c.form c.items c.savedAt c.confirm c.readDenied c.writeDenied _ h)

theorem value_throughJSON_idem (v : JSValue) : v.throughJSON.throughJSON = v.throughJSON := by
  cases v with
  | null => rfl
  | number x => cases x <;> rfl

theorem value_throughJSON_of_finite (v : JSValue) (h : v.isNullOrFinite = true) :
    v.throughJSON = v := by
  cases v with
  | null => rfl
  | number x =>
    cases x with
    | nan => simp [JSValue.isNullOrFinite] at h
    | infinity negative => simp [JSValue.isNullOrFinite] at h
    | finite num exp2 => rfl

theorem item_throughJSON_idem (item : LineItem) :
    item.throughJSON.throughJSON = item.throughJSON := by
  simp [LineItem.throughJSON, value_throughJSON_idem]

theorem record_throughJSON_idem (inv : InvoiceRecord) :
    inv.throughJSON.throughJSON = inv.throughJSON := by
  simp only [InvoiceRecord.throughJSON, List.map_map]
  congr 1
  apply List.map_congr_left
  intro item _
  exact item_throughJSON_idem item

/-- A record whose item numbers are finite is read back as it was written. -/
theorem invoiceData_throughJSON (form : InvoiceForm) (items : List LineItem) (savedAt : String)
    (h : ∀ item ∈ items, item.price.isNullOrFinite = true ∧ item.qty.isNullOrFinite = true) :
    (invoiceData form items savedAt).throughJSON = invoiceData form items savedAt := by
  simp only [InvoiceRecord.throughJSON, invoiceData]
  congr 1
  conv_rhs => rw [← List.map_id items]
  apply List.map_congr_left
  intro item hmem
  obtain ⟨h1, h2⟩ := h item hmem
  simp [LineItem.throughJSON, value_throughJSON_of_finite _ h1,
    value_throughJSON_of_finite _ h2]

/-! ### Saving: the claims -/

/-- C3. Ids stay unique in storage: after any sequence of `saveInvoice` calls from an
empty store no two stored records share an id; and a successful save into a collection of
pairwise-distinct ids leaves pairwise-distinct ids with exactly one record of the saved
id. -/
theorem saveInvoice_ids_unique :
    (∀ calls : List SaveCall, (storedIds (runSaves calls none)).Nodup) ∧
    (∀ (invoices : List InvoiceRecord) (c : SaveCall),
      (invoices.map (fun inv => inv.id)).Nodup →
      (saveInvoice c.form c.items c.savedAt c.confirm c.readDenied c.writeDenied
        (some (StoredText.json invoices))).2 = SaveOutcome.saved →
      ∃ updated, c.apply (some (StoredText.json invoices)) = some (StoredText.json updated) ∧
        (updated.map (fun inv => inv.id)).Nodup ∧
        (updated.map (fun inv => inv.id)).count c.form.invoiceId = 1) := by
  refine ⟨fun calls => runSaves_nodup calls none (by simp [storedIds]), ?_⟩
  intro invoices c hnodup hsaved
  have hnd := saveInvoice_nodup c.form c.items c.savedAt c.confirm c.readDenied c.writeDenied
    (some (StoredText.json invoices)) hnodup
  rcases saveInvoice_storage c.form c.items c.savedAt c.confirm c.readDenied c.writeDenied
    (some (StoredText.json invoices)) with ⟨hne, _⟩ | ⟨read, hg, _, h2⟩
  · exact absurd hsaved hne
  · rcases h2 with ⟨i, hi, hid, _, _, hs⟩ | ⟨hnew, hs⟩
    · refine ⟨_, hs, ?_, ?_⟩
      · rw [hs] at hnd; exact hnd
      · apply List.count_eq_one_of_mem
        · rw [hs] at hnd; exact hnd
        · rw [map_id_set read i hi _ hid, ← hid]
          exact List.mem_map_of_mem _ (List.get_mem _ _ _)
    · refine ⟨_, hs, ?_, ?_⟩
      · rw [hs] at hnd; exact hnd
      · apply List.count_eq_one_of_mem
        · rw [hs] at hnd; exact hnd
        · simp [invoiceData]

theorem saveInvoice_ids_unique_witness :
    ∃ updated, sampleCall.apply (some (StoredText.json [sampleRecord]))
        = some (StoredText.json updated) ∧
      (updated.map (fun inv => inv.id)).Nodup ∧
      (updated.map (fun inv => inv.id)).count sampleCall.form.invoiceId = 1 :=
  saveInvoice_ids_unique.2 [sampleRecord] sampleCall (by decide) (by decide)

/-- C4. A save onto an id that is already stored, with the overwrite prompt declined,
leaves the storage as it was and ends in the declined outcome (the missing-id alert when
the id is the empty string), never in the storage-failure outcome. -/
theorem saveInvoice_declined (form : InvoiceForm) (items : List LineItem) (savedAt : String)
    (readDenied writeDenied : Bool) (storage : Storage) (invoices : List InvoiceRecord)
    (hread : getInvoices readDenied storage = Except.ok invoices)
    (hex : ∃ inv ∈ invoices, inv.id = form.invoiceId) :
    saveInvoice form items savedAt false readDenied writeDenied storage
      = (storage, if form.invoiceId = "" then SaveOutcome.missingId else SaveOutcome.declined) ∧
    (saveInvoice form items savedAt false readDenied writeDenied storage).2
      ≠ SaveOutcome.storageDenied := by
  obtain ⟨inv, hmem, hid⟩ := hex
  obtain ⟨i, hi⟩ := findIndex_isSome_of_mem (fun inv => decide (inv.id = form.invoiceId))
    invoices inv hmem (by simpa using hid)
  have h : saveInvoice form items savedAt false readDenied writeDenied storage
      = (storage, if form.invoiceId = "" then SaveOutcome.missingId else SaveOutcome.declined) := by
    unfold saveInvoice
    by_cases hempty : form.invoiceId = ""
    · simp [hempty]
    · simp [hempty, hread, hi]
  refine ⟨h, ?_⟩
  rw [h]
  by_cases hempty : form.invoiceId = "" <;> simp [hempty]

theorem saveInvoice_declined_witness :
    saveInvoice sampleForm [initialItem] "now" false false false
        (some (StoredText.json [sampleRecord]))
      = (some (StoredText.json [sampleRecord]),
          if sampleForm.invoiceId = "" then SaveOutcome.missingId else SaveOutcome.declined) ∧
    (saveInvoice sampleForm [initialItem] "now" false false false
        (some (StoredText.json [sampleRecord]))).2 ≠ SaveOutcome.storageDenied :=
  saveInvoice_declined sampleForm [initialItem] "now"
    false false (some (StoredText.json [sampleRecord])) [sampleRecord] rfl
    ⟨sampleRecord, by simp, rfl⟩

/-- C5 (as amended). A confirmed save onto a stored id whose write succeeds, of items
whose prices and quantities are finite numbers (or `null`), replaces the record in
place: the collection read back afterwards keeps its length, holds the new record (with
the new items) at the position of the first record of that id, and is unchanged at every
other position. -/
theorem saveInvoice_overwrite (form : InvoiceForm) (items : List LineItem) (savedAt : String)
    (readDenied writeDenied : Bool) (storage : Storage) (invoices : List InvoiceRecord)
    (hread : getInvoices readDenied storage = Except.ok invoices)
    (hex : ∃ inv ∈ invoices, inv.id = form.invoiceId)
    (hfinite : ∀ item ∈ items,
      item.price.isNullOrFinite = true ∧ item.qty.isNullOrFinite = true)
    (hsaved : (saveInvoice form items savedAt true readDenied writeDenied storage).2
      = SaveOutcome.saved) :
    ∃ (i : Nat) (updated : List InvoiceRecord),
      getInvoices false (saveInvoice form items savedAt true readDenied writeDenied storage).1
        = Except.ok updated ∧
      updated.length = invoices.length ∧
      (invoices.get? i).map (fun inv => inv.id) = some form.invoiceId ∧
      (∀ j, j < i → (invoices.get? j).map (fun inv => inv.id) ≠ some form.invoiceId) ∧
      updated.get? i = some (invoiceData form items savedAt) ∧
      (invoiceData form items savedAt).items = items ∧
      ∀ j, j ≠ i → updated.get? j = invoices.get? j := by
  rcases saveInvoice_storage form items savedAt true readDenied writeDenied storage with
    ⟨hne, _⟩ | ⟨read, hg, _, h2⟩
  · exact absurd hsaved hne
  · rw [hread] at hg
    injection hg with hg
    subst hg
    have hfix : invoices.map InvoiceRecord.throughJSON = invoices := by
      rcases getInvoices_ids _ _ _ hread with h0 | ⟨l, _, h1⟩
      · rw [h0]; rfl
      · rw [h1, List.map_map]
        apply List.map_congr_left
        intro inv _
        exact record_throughJSON_idem inv
    rcases h2 with ⟨i, hi, hid, hfind, _, hs⟩ | ⟨hnew, _⟩
    · obtain ⟨_, _, hfirst⟩ := findIndex_eq_some _ _ _ hfind
      have hback : getInvoices false
          (saveInvoice form items savedAt true readDenied writeDenied storage).1
          = Except.ok (invoices.set i (invoiceData form items savedAt)) := by
        rw [hs]
        show Except.ok ((invoices.set i (invoiceData form items savedAt)).map
          InvoiceRecord.throughJSON) = _
        rw [List.map_set, hfix, invoiceData_throughJSON form items savedAt hfinite]
      refine ⟨i, _, hback, by simp, ?_, ?_, ?_, rfl, ?_⟩
      · rw [List.get?_eq_get hi]; simpa using hid
      · intro j hj
        have hjl : j < invoices.length := lt_trans hj hi
        have := hfirst j hjl hj
        rw [List.get?_eq_get hjl]
        simpa using this
      · simp [List.getElem?_set, hi]
      · intro j hj
        simp [List.getElem?_set, Ne.symm hj]
    · obtain ⟨inv, hmem, hid⟩ := hex
      exact absurd hid (hnew inv hmem)

/-- C5, at a concrete save: the form of `sampleForm` with the default item, confirmed,
onto the collection holding `sampleRecord`. -/
theorem saveInvoice_overwrite_witness :
    ∃ (i : Nat) (updated : List InvoiceRecord),
      getInvoices false (saveInvoice sampleForm [initialItem] "now" true
        false false (some (StoredText.json [sampleRecord]))).1 = Except.ok updated ∧
      updated.length = [sampleRecord].length ∧
      ([sampleRecord].get? i).map (fun inv => inv.id) = some sampleForm.invoiceId ∧
      (∀ j, j < i →
        ([sampleRecord].get? j).map (fun inv => inv.id) ≠ some sampleForm.invoiceId) ∧
      updated.get? i = some (invoiceData sampleForm [initialItem] "now") ∧
      (invoiceData sampleForm [initialItem] "now").items = [initialItem] ∧
      ∀ j, j ≠ i → updated.get? j = [sampleRecord].get? j :=
  saveInvoice_overwrite sampleForm [initialItem] "now"
    false false (some (StoredText.json [sampleRecord])) [sampleRecord] rfl
    ⟨sampleRecord, by simp, rfl⟩ (by decide) rfl

/-- C5 as stated fails: a confirmed, successful save of an item whose price is Infinity
onto the stored id leaves a record whose item has the price `null`, not the new items. -/
theorem saveInvoice_overwrite_infinity :
    (saveInvoice sampleForm [infiniteItem] "now" true false false
        (some (StoredText.json [sampleRecord]))).2 = SaveOutcome.saved ∧
    getInvoices false (saveInvoice sampleForm [infiniteItem] "now" true false false
        (some (StoredText.json [sampleRecord]))).1
      = Except.ok [⟨"BL-25-12-01", "2025-12-15", "Acme", "1 Main St",
          [⟨"Gold", JSValue.null, JSValue.number JSNumber.one⟩], "now"⟩] ∧
    [⟨"Gold", JSValue.null, JSValue.number JSNumber.one⟩]
      ≠ (invoiceData sampleForm [infiniteItem] "now").items := by
  refine ⟨rfl, rfl, by decide⟩

/-- C7. Reading the history with the key absent, or with the read denied, gives the empty
list; on stored text that is not JSON `getInvoices` throws instead. -/
theorem getInvoices_malformed_throws :
    getInvoices false none = Except.ok [] ∧
    (∀ storage, getInvoices true storage = Except.ok []) ∧
    getInvoices false (some StoredText.malformed) = Except.error JSError.syntaxError :=
  ⟨rfl, fun _ => rfl, rfl⟩

/-! ### Editing the items: lemmas -/

theorem normalize_fst_zero (m k : Nat) (h : (JSNumber.normalize m k).1 = 0) :
    (JSNumber.normalize m k).2 = 0 := by
  induction k generalizing m with
  | zero => rfl
  | succ k ih =>
    unfold JSNumber.normalize at h ⊢
    by_cases hm : m % 2 = 0
    · simp only [hm, if_true] at h ⊢
      exact ih _ h
    · simp only [hm, if_false] at h ⊢
      subst h
      simp at hm

theorem signed_eq_zero (negative : Bool) (m : Nat) (h : JSNumber.signed negative m = 0) :
    m = 0 := by
  unfold JSNumber.signed at h
  cases negative <;> simp at h <;> exact h

/-- A zero produced by rounding is the canonical zero. -/
theorem roundToDouble_zero (negative : Bool) (N D k : Nat)
    (h : JSNumber.roundToDouble negative N D = JSNumber.finite 0 k) : k = 0 := by
  unfold JSNumber.roundToDouble at h
  by_cases hN : N = 0
  · simp only [hN, if_true, JSNumber.zero] at h
    injection h with _ h2
    exact h2.symm
  · simp only [hN, if_false] at h
    split at h
    · split at h
      · cases h
      · injection h with _ h2
        exact h2.symm
    · injection h with h1 h2
      rw [← h2]
      exact normalize_fst_zero _ _ (signed_eq_zero _ _ h1)

theorem parseFloat_zero (raw : String) (k : Nat)
    (h : parseFloat raw = JSNumber.finite 0 k) : k = 0 := by
  unfold parseFloat at h
  simp only at h
  split at h
  · cases h
  · split at h
    · cases h
    · split at h
      · exact roundToDouble_zero _ _ _ _ h
      · exact roundToDouble_zero _ _ _ _ h

/-- The value stored for a price or quantity is the number read, or zero when there is
none. -/
theorem parseFloatOrZero_eq (raw : String) :
    parseFloatOrZero raw
      = if (parseFloat raw).isNaN then JSNumber.zero else parseFloat raw := by
  unfold parseFloatOrZero
  cases h : parseFloat raw with
  | nan => rfl
  | infinity negative => rfl
  | finite num k =>
    by_cases hz : num = 0
    · subst hz
      have := parseFloat_zero raw k h
      subst this
      rfl
    · simp [JSNumber.toBoolean, JSNumber.isNaN, hz]

/-- C6. The grand total is stale at page load: the load handler stops at the call of the
undeclared `setupEventListeners`, after the QR code has been generated for the amount
1500 and before `updatePreview` has run, so that no total is written and the QR code
carries 1500 while the one default item sums to 0.  Once `updatePreview` has run with no
custom QR image in place, the total shown and the amount in the QR code are the sum of
price times quantity over the current items after every sequence of add-item,
remove-item, set-field, start-new and load events, and the end-to-end scenario gives 200.
With a custom QR image in place `startNewInvoice` updates the preview before it resets
the QR state, so no QR code is generated for the new total, whereas `loadInvoice` resets
first and generates it. -/
theorem grandTotal_stale_at_load :
    (∀ (readDenied : Bool) (storage : Storage) (today : JSDate),
      (initialState readDenied storage today).currentInvoiceItems = [initialItem] ∧
      sumOfLineTotals (initialState readDenied storage today).currentInvoiceItems
        = JSNumber.finite 0 0 ∧
      (initialState readDenied storage today).previewTotal = none ∧
      (initialState readDenied storage today).qrAmount = some (JSNumber.finite 1500 0)) ∧
    (∀ (s : AppState) (events : List Event),
      (run events (updatePreview (resetQRState s))).previewTotal
        = some (sumOfLineTotals
            (run events (updatePreview (resetQRState s))).currentInvoiceItems) ∧
      (run events (updatePreview (resetQRState s))).qrAmount
        = some (sumOfLineTotals
            (run events (updatePreview (resetQRState s))).currentInvoiceItems)) ∧
    (∀ (readDenied : Bool) (storage : Storage) (today : JSDate),
      (scenarioState readDenied storage today).previewTotal = some (JSNumber.finite 200 0) ∧
      (scenarioState readDenied storage today).qrAmount = some (JSNumber.finite 200 0) ∧
      sumOfLineTotals (scenarioState readDenied storage today).currentInvoiceItems
        = JSNumber.finite 200 0) ∧
    ((startNewInvoice false none december2025 customQRState).state.previewTotal
        = some (JSNumber.finite 0 0) ∧
      (startNewInvoice false none december2025 customQRState).state.qrAmount = none ∧
      (loadInvoice sampleRecord customQRState).state.qrAmount
        = some (JSNumber.finite 0 0)) := by
  refine ⟨fun _ _ _ => ⟨rfl, rfl, rfl, rfl⟩, ?_, ?_, by decide⟩
  · intro s events
    have h := run_fresh events _ (updatePreview_fresh (resetQRState s) rfl)
    exact ⟨h.1, h.2.1⟩
  · intro readDenied storage today
    simp only [scenarioState, run, List.foldl, Event.handle, startNewInvoice]
    cases autoGenerateNextId readDenied storage today <;> exact ⟨rfl, rfl, rfl⟩

/-! ### Editing the items: the claims -/

/-- C8 (as amended). Removing by index: an index within bounds removes exactly that item
and keeps the others in order; an index at or past the length leaves the list unchanged;
a negative index is counted from the end of the list; and in no case does the handler
fail. -/
theorem onRemoveClick_spec (s : AppState) :
    (∀ i : Nat, i < s.currentInvoiceItems.length →
      (onRemoveClick (i : Int) s).state.currentInvoiceItems = s.currentInvoiceItems.eraseIdx i) ∧
    (∀ idx : Int, (s.currentInvoiceItems.length : Int) ≤ idx →
      (onRemoveClick idx s).state.currentInvoiceItems = s.currentInvoiceItems) ∧
    (∀ idx : Int, idx < 0 →
      (onRemoveClick idx s).state.currentInvoiceItems
        = s.currentInvoiceItems.eraseIdx ((s.currentInvoiceItems.length : Int) + idx).toNat) ∧
    (∀ idx : Int, (onRemoveClick idx s).thrown = none) := by
  refine ⟨?_, ?_, ?_, fun _ => rfl⟩
  · intro i hi
    simp only [onRemoveClick, updatePreview_items, splice1]
    have h1 : ¬ ((i : Int) < 0) := by omega
    simp only [h1, if_false, Int.toNat_ofNat]
    rw [Nat.min_eq_left (le_of_lt hi)]
  · intro idx hidx
    simp only [onRemoveClick, updatePreview_items, splice1]
    have h1 : ¬ (idx < 0) := by omega
    simp only [h1, if_false]
    have h2 : s.currentInvoiceItems.length ≤ idx.toNat := by omega
    rw [Nat.min_eq_right h2]
    exact List.eraseIdx_of_length_le (le_refl _)
  · intro idx hidx
    simp only [onRemoveClick, updatePreview_items, splice1, hidx, if_true]

theorem onRemoveClick_spec_witness :
    (onRemoveClick ((1 : Nat) : Int) twoItems).state.currentInvoiceItems
        = twoItems.currentInvoiceItems.eraseIdx 1 ∧
    (onRemoveClick 2 twoItems).state.currentInvoiceItems = twoItems.currentInvoiceItems ∧
    (onRemoveClick (-1) twoItems).state.currentInvoiceItems
        = twoItems.currentInvoiceItems.eraseIdx
          ((twoItems.currentInvoiceItems.length : Int) + (-1)).toNat :=
  ⟨(onRemoveClick_spec twoItems).1 1 (by decide),
    (onRemoveClick_spec twoItems).2.1 2 (by decide),
    (onRemoveClick_spec twoItems).2.2.1 (-1) (by decide)⟩

/-- C8 as stated fails: the index -1 is out of bounds, yet the handler does not fail and
removes the last item instead of leaving the list unchanged; nor does it fail at an index
past the end. -/
theorem onRemoveClick_out_of_range :
    (onRemoveClick (-1) twoItems).thrown = none ∧
    (onRemoveClick (-1) twoItems).state.currentInvoiceItems
      = [⟨"a", JSValue.number JSNumber.one, JSValue.number JSNumber.one⟩] ∧
    (onRemoveClick (-1) twoItems).state.currentInvoiceItems ≠ twoItems.currentInvoiceItems ∧
    (onRemoveClick 2 twoItems).thrown = none := by
  decide

/-- C9. Permissive parsing: for an index within bounds the input handler never fails;
on the price or quantity it stores the number `parseFloat` reads from the raw string, or
zero when there is none (as for "abc"); on the name it stores the raw string; the other
fields of the item and the other items stay as they were. -/
theorem onItemInput_spec (s : AppState) (idx : Nat) (raw : String)
    (h : idx < s.currentInvoiceItems.length) :
    (onItemInput idx ItemField.price raw s).thrown = none ∧
    (onItemInput idx ItemField.qty raw s).thrown = none ∧
    (onItemInput idx ItemField.name raw s).thrown = none ∧
    (onItemInput idx ItemField.price raw s).state.currentInvoiceItems
      = s.currentInvoiceItems.set idx
          ⟨(s.currentInvoiceItems.get ⟨idx, h⟩).name,
            JSValue.number (if (parseFloat raw).isNaN then JSNumber.zero else parseFloat raw),
            (s.currentInvoiceItems.get ⟨idx, h⟩).qty⟩ ∧
    (onItemInput idx ItemField.qty raw s).state.currentInvoiceItems
      = s.currentInvoiceItems.set idx
          ⟨(s.currentInvoiceItems.get ⟨idx, h⟩).name,
            (s.currentInvoiceItems.get ⟨idx, h⟩).price,
            JSValue.number (if (parseFloat raw).isNaN then JSNumber.zero else parseFloat raw)⟩ ∧
    (onItemInput idx ItemField.name raw s).state.currentInvoiceItems
      = s.currentInvoiceItems.set idx
          ⟨raw, (s.currentInvoiceItems.get ⟨idx, h⟩).price,
            (s.currentInvoiceItems.get ⟨idx, h⟩).qty⟩ ∧
    (∀ (field : ItemField) (j : Nat), j ≠ idx →
      (onItemInput idx field raw s).state.currentInvoiceItems.get? j
        = s.currentInvoiceItems.get? j) ∧
    (onItemInput idx ItemField.price "abc" s).state.currentInvoiceItems
      = s.currentInvoiceItems.set idx
          ⟨(s.currentInvoiceItems.get ⟨idx, h⟩).name, JSValue.number JSNumber.zero,
            (s.currentInvoiceItems.get ⟨idx, h⟩).qty⟩ := by
  have hget : s.currentInvoiceItems.get? idx = some (s.currentInvoiceItems.get ⟨idx, h⟩) :=
    List.get?_eq_get h
  have habc : parseFloatOrZero "abc" = JSNumber.zero := by decide
  refine ⟨?_, ?_, ?_, ?_, ?_, ?_, ?_, ?_⟩
  · simp only [onItemInput, hget]
  · simp only [onItemInput, hget]
  · simp only [onItemInput, hget]
  · simp only [onItemInput, hget, updatePreview_items, LineItem.assign, parseFloatOrZero_eq]
  · simp only [onItemInput, hget, updatePreview_items, LineItem.assign, parseFloatOrZero_eq]
  · simp only [onItemInput, hget, updatePreview_items, LineItem.assign]
  · intro field j hj
    simp only [onItemInput, hget, updatePreview_items]
    simp [List.getElem?_set, Ne.symm hj]
  · simp only [onItemInput, hget, updatePreview_items, LineItem.assign, habc]

theorem onItemInput_spec_witness :
    (onItemInput 1 ItemField.price "12.5" twoItems).thrown = none ∧
    (onItemInput 1 ItemField.price "12.5" twoItems).state.currentInvoiceItems
      = [⟨"a", JSValue.number JSNumber.one, JSValue.number JSNumber.one⟩,
          ⟨"b", JSValue.number (JSNumber.finite 25 1), JSValue.number JSNumber.one⟩] := by
  have h := onItemInput_spec twoItems 1 "12.5" (by decide)
  refine ⟨h.1, ?_⟩
  rw [h.2.2.2.1]
  decide

/-! ### Signs of the item numbers -/

theorem parseFloatOrZero_nonneg (raw : String) (h : (parseFloat raw).isNegative = false) :
    (parseFloatOrZero raw).isNonNegative = true := by
  rw [parseFloatOrZero_eq]
  revert h
  cases parseFloat raw with
  | nan => intro _; rfl
  | infinity negative =>
    cases negative with
    | false => intro _; rfl
    | true => intro h; simp [JSNumber.isNegative, JSNumber.zero, JSNumber.gt] at h
  | finite num k =>
    intro h
    simp only [JSNumber.isNegative, JSNumber.zero, JSNumber.gt, decide_eq_false_iff_not,
      not_lt, zero_mul, pow_zero, mul_one] at h
    simpa [JSNumber.isNaN, JSNumber.isNonNegative] using h

theorem initialItem_nonneg : initialItem.NonNegative := by
  constructor <;> decide

/-- The load handler leaves the default item as the only item. -/
theorem initialState_items (readDenied : Bool) (storage : Storage) (today : JSDate) :
    (initialState readDenied storage today).currentInvoiceItems = [initialItem] := rfl

theorem handle_nonneg (ev : Event) (s : AppState) (hev : ev.NonNegativeEdit)
    (h : ∀ item ∈ s.currentInvoiceItems, item.NonNegative) :
    ∀ item ∈ (ev.handle s).state.currentInvoiceItems, item.NonNegative := by
  cases ev with
  | addItem =>
    intro item hmem
    simp only [Event.handle, onAddItemClick, updatePreview_items, List.mem_append,
      List.mem_singleton] at hmem
    rcases hmem with hmem | rfl
    · exact h item hmem
    · exact initialItem_nonneg
  | removeItem idx =>
    intro item hmem
    simp only [Event.handle, onRemoveClick, updatePreview_items, splice1] at hmem
    exact h item (List.mem_of_mem_eraseIdx hmem)
  | setField idx field raw =>
    simp only [Event.handle, onItemInput]
    cases hget : s.currentInvoiceItems.get? idx with
    | none => exact h
    | some old =>
      intro item hmem
      simp only [updatePreview_items] at hmem
      rcases List.mem_or_eq_of_mem_set hmem with hmem | rfl
      · exact h item hmem
      · have hold : old.NonNegative := h old (List.get?_mem hget)
        cases field with
        | name => exact hold
        | price => exact ⟨parseFloatOrZero_nonneg raw hev, hold.2⟩
        | qty => exact ⟨hold.1, parseFloatOrZero_nonneg raw hev⟩
  | startNew readDenied storage today =>
    simp only [Event.handle, startNewInvoice]
    cases autoGenerateNextId readDenied storage today with
    | error e =>
      intro item hmem
      simp only [updatePreview_items, List.mem_singleton] at hmem
      subst hmem
      exact initialItem_nonneg
    | ok newId =>
      intro item hmem
      simp only [resetQRState, updatePreview_items, List.mem_singleton] at hmem
      subst hmem
      exact initialItem_nonneg
  | load inv => exact absurd hev (by simp [Event.NonNegativeEdit])

theorem run_nonneg (events : List Event) (s : AppState)
    (hev : ∀ ev ∈ events, ev.NonNegativeEdit)
    (h : ∀ item ∈ s.currentInvoiceItems, item.NonNegative) :
    ∀ item ∈ (run events s).currentInvoiceItems, item.NonNegative := by
  induction events generalizing s with
  | nil => exact h
  | cons ev evs ih =>
    exact ih _ (fun e he => hev e (List.mem_cons_of_mem _ he))
      (handle_nonneg ev s (hev ev (List.mem_cons_self _ _)) h)

theorem initialState_nonneg (readDenied : Bool) (storage : Storage) (today : JSDate) :
    ∀ item ∈ (initialState readDenied storage today).currentInvoiceItems, item.NonNegative := by
  intro item hmem
  rw [initialState_items, List.mem_singleton] at hmem
  subst hmem
  exact initialItem_nonneg

/-- C10 (as amended). In every state reached from the initial state by add-item,
remove-item, set-field and start-new events in which no price or quantity is set from a
raw string that reads as a negative number, every item has a price and a quantity that
are at least zero. -/
theorem items_nonNegative (readDenied : Bool) (storage : Storage) (today : JSDate)
    (events : List Event) (hev : ∀ ev ∈ events, ev.NonNegativeEdit) :
    ∀ item ∈ (run events (initialState readDenied storage today)).currentInvoiceItems,
      item.price.isNonNegative = true ∧ item.qty.isNonNegative = true :=
  run_nonneg events _ hev (initialState_nonneg readDenied storage today)

/-- C10, at a concrete run: an added item, a price typed as "abc", a quantity typed as
"2.5"; the edited first item is in the list and has a price and a quantity at least
zero. -/
theorem items_nonNegative_witness :
    (⟨"", JSValue.number JSNumber.zero, JSValue.number (JSNumber.finite 5 1)⟩ : LineItem)
      ∈ (run [Event.addItem, Event.setField 1 ItemField.price "abc",
          Event.setField 0 ItemField.qty "2.5"]
        (initialState false none december2025)).currentInvoiceItems ∧
    ((JSValue.number JSNumber.zero).isNonNegative = true ∧
      (JSValue.number (JSNumber.finite 5 1)).isNonNegative = true) :=
  ⟨by decide,
    items_nonNegative false none december2025
      [Event.addItem, Event.setField 1 ItemField.price "abc",
        Event.setField 0 ItemField.qty "2.5"]
      (by
        intro ev hev
        simp only [List.mem_cons, List.mem_singleton, List.not_mem_nil, or_false] at hev
        rcases hev with rfl | rfl | rfl
        · trivial
        · show (parseFloat "abc").isNegative = false
          decide
        · show (parseFloat "2.5").isNegative = false
          decide)
      ⟨"", JSValue.number JSNumber.zero, JSValue.number (JSNumber.finite 5 1)⟩ (by decide)⟩

/-- C10 as stated fails: typing "-5" as the price of the first item of the initial state
stores the price -5, which is below zero. -/
theorem items_negative_price :
    (run [Event.setField 0 ItemField.price "-5"]
        (initialState false none december2025)).currentInvoiceItems
      = [⟨"", JSValue.number (JSNumber.finite (-5) 0), JSValue.number JSNumber.one⟩] ∧
    (JSValue.number (JSNumber.finite (-5) 0)).isNonNegative = false := by
  decide

/-! ### Integers below `2 ^ 53` are exact -/

theorem bitLengthAux_zero (fuel : Nat) : JSNumber.bitLengthAux fuel 0 = 0 := by
  cases fuel <;> rfl

theorem bitLengthAux_bounds (fuel n : Nat) (hn : 0 < n) (hf : n ≤ fuel) :
    1 ≤ JSNumber.bitLengthAux fuel n ∧
      2 ^ (JSNumber.bitLengthAux fuel n - 1) ≤ n ∧ n < 2 ^ JSNumber.bitLengthAux fuel n := by
  induction fuel generalizing n with
  | zero => omega
  | succ f ih =>
    have hne : n ≠ 0 := by omega
    simp only [JSNumber.bitLengthAux, hne, if_false]
    by_cases h2 : n / 2 = 0
    · have h1 : n = 1 := by omega
      subst h1
      simp [bitLengthAux_zero]
    · obtain ⟨hb1, hb2, hb3⟩ := ih (n / 2) (by omega) (by omega)
      refine ⟨by omega, ?_, ?_⟩
      · have : JSNumber.bitLengthAux f (n / 2) + 1 - 1
            = (JSNumber.bitLengthAux f (n / 2) - 1) + 1 := by omega
        rw [this, pow_succ]
        omega
      · rw [pow_succ]
        omega

theorem bitLength_bounds (n : Nat) (hn : 0 < n) :
    1 ≤ JSNumber.bitLength n ∧
      2 ^ (JSNumber.bitLength n - 1) ≤ n ∧ n < 2 ^ JSNumber.bitLength n :=
  bitLengthAux_bounds n n hn (le_refl n)

theorem normalize_mul_pow (n k : Nat) : JSNumber.normalize (n * 2 ^ k) k = (n, 0) := by
  induction k with
  | zero => simp [JSNumber.normalize]
  | succ k ih =>
    have h1 : n * 2 ^ (k + 1) % 2 = 0 := by
      rw [pow_succ, ← mul_assoc]; exact Nat.mul_mod_left _ _
    have h2 : n * 2 ^ (k + 1) / 2 = n * 2 ^ k := by
      rw [pow_succ, ← mul_assoc]; exact Nat.mul_div_cancel _ (by norm_num)
    simp only [JSNumber.normalize, h1, if_true, h2, ih]

theorem roundHalfEven_one (n : Nat) : JSNumber.roundHalfEven n 1 = n := by
  simp [JSNumber.roundHalfEven, Nat.mod_one]

/-- A natural number up to `2 ^ 53` is its own nearest double. -/
theorem roundToDouble_nat (n : Nat) (h : n ≤ 2 ^ 53) :
    JSNumber.roundToDouble false n 1 = JSNumber.finite (n : Int) 0 := by
  rcases Nat.eq_zero_or_pos n with h0 | hpos
  · subst h0; rfl
  rcases Nat.lt_or_ge n (2 ^ 53) with hlt | hge
  · obtain ⟨hb1, hb2, hb3⟩ := bitLength_bounds n hpos
    have hb53 : JSNumber.bitLength n ≤ 53 := by
      by_contra hcon
      have h54 : 53 ≤ JSNumber.bitLength n - 1 := by omega
      have : 2 ^ 53 ≤ 2 ^ (JSNumber.bitLength n - 1) := Nat.pow_le_pow_right (by norm_num) h54
      omega
    have hfl : JSNumber.floorLog2 n 1 = (JSNumber.bitLength n : Int) - 1 := by
      unfold JSNumber.floorLog2
      have hbl1 : JSNumber.bitLength 1 = 1 := by decide
      rw [hbl1]
      have he : (JSNumber.bitLength n : Int) - ((1 : Nat) : Int)
          = Int.ofNat (JSNumber.bitLength n - 1) := by
        simp only [Int.ofNat_eq_coe]; omega
      simp only [he, JSNumber.pow2Le, one_mul, hb2, decide_True, if_true]
      simp only [Int.ofNat_eq_coe]; omega
    unfold JSNumber.roundToDouble
    have hne : n ≠ 0 := by omega
    simp only [hne, if_false, hfl]
    rcases Nat.lt_or_ge (JSNumber.bitLength n) 53 with hl | hg
    · obtain ⟨k, hk⟩ : ∃ k, 53 - JSNumber.bitLength n = k + 1 := ⟨52 - JSNumber.bitLength n, by omega⟩
      have hu : max ((JSNumber.bitLength n : Int) - 1 - 52) (-1074) = Int.negSucc k := by
        rw [max_eq_left (by omega)]
        rw [Int.negSucc_eq]
        omega
      rw [hu]
      simp only [roundHalfEven_one, normalize_mul_pow, JSNumber.signed]
      rfl
    · have hu : max ((JSNumber.bitLength n : Int) - 1 - 52) (-1074) = Int.ofNat 0 := by
        rw [max_eq_left (by omega)]
        simp only [Int.ofNat_eq_coe]; omega
      rw [hu]
      simp [roundHalfEven_one, JSNumber.signed]
  · have : n = 2 ^ 53 := le_antisymm h hge
    subst this
    decide

theorem ofInt_of_le (z : Int) (h0 : 0 ≤ z) (h1 : z ≤ 2 ^ 53) :
    JSNumber.ofInt z = JSNumber.finite z 0 := by
  obtain ⟨n, rfl⟩ := Int.eq_ofNat_of_zero_le h0
  unfold JSNumber.ofInt
  have hneg : decide ((n : Int) < 0) = false := by simp
  rw [hneg, Int.natAbs_ofNat]
  exact roundToDouble_nat n (by exact_mod_cast h1)

theorem add_one_of_le (m : Int) (h0 : 0 ≤ m) (h1 : m + 1 ≤ 2 ^ 53) :
    (JSNumber.finite m 0).add JSNumber.one = JSNumber.finite (m + 1) 0 := by
  have h := ofInt_of_le (m + 1) (by omega) h1
  unfold JSNumber.ofInt at h
  simpa [JSNumber.add, JSNumber.one] using h

theorem gt_finite (a b : Int) :
    (JSNumber.finite a 0).gt (JSNumber.finite b 0) = decide (b < a) := by
  simp [JSNumber.gt]

theorem numberToString_of_le (z : Int) (h0 : 0 ≤ z) (h1 : z ≤ 2 ^ 53) :
    numberToString (JSNumber.finite z 0) = String.mk (decimal z.natAbs) := by
  obtain ⟨n, rfl⟩ := Int.eq_ofNat_of_zero_le h0
  have hn : n ≤ 2 ^ 53 := by exact_mod_cast h1
  have hneg : ¬ ((n : Int) < 0) := by omega
  simp only [numberToString, Int.natAbs_ofNat, hneg, if_false, List.nil_append]
  rw [if_pos ⟨trivial, hn⟩]

/-! ### Splitting and trailing segments -/

theorem splitChars_ne_nil (sep : Char) (l : List Char) : splitChars sep l ≠ [] := by
  cases l with
  | nil => simp [splitChars]
  | cons c cs =>
    unfold splitChars
    by_cases h : c = sep
    · simp [h]
    · simp only [h, if_false]
      cases splitChars sep cs <;> simp

theorem splitChars_of_not_mem (sep : Char) (l : List Char) (h : sep ∉ l) :
    splitChars sep l = [l] := by
  induction l with
  | nil => rfl
  | cons c cs ih =>
    have hc : ¬ c = sep := fun hc => h (by simp [hc])
    have hcs : sep ∉ cs := fun hm => h (List.mem_cons_of_mem _ hm)
    unfold splitChars
    simp only [hc, if_false, ih hcs]

theorem splitChars_cons_sep (sep : Char) (cs : List Char) :
    splitChars sep (sep :: cs) = [] :: splitChars sep cs := by
  simp [splitChars]

theorem splitChars_cons_ne (sep c : Char) (cs p : List Char) (ps : List (List Char))
    (hc : ¬ c = sep) (hs : splitChars sep cs = p :: ps) :
    splitChars sep (c :: cs) = (c :: p) :: ps := by
  simp [splitChars, hc, hs]

theorem splitChars_append (sep : Char) (pre rest : List Char) :
    splitChars sep (pre ++ sep :: rest) = splitChars sep pre ++ splitChars sep rest := by
  induction pre with
  | nil => simp [splitChars]
  | cons c cs ih =>
    rw [List.cons_append]
    by_cases hc : c = sep
    · subst hc
      rw [splitChars_cons_sep, splitChars_cons_sep, ih, List.cons_append]
    · cases hs : splitChars sep cs with
      | nil => exact absurd hs (splitChars_ne_nil sep cs)
      | cons p ps =>
        rw [hs, List.cons_append] at ih
        rw [splitChars_cons_ne sep c _ p _ hc ih, splitChars_cons_ne sep c cs p ps hc hs,
          List.cons_append]

/-- Every string is its trailing segment, or a prefix, a separator and the trailing
segment; the trailing segment holds no separator. -/
theorem trailing_decomp (sep : Char) (l : List Char) :
    sep ∉ (l.reverse.takeWhile (fun c => decide (c ≠ sep))).reverse ∧
    (l = (l.reverse.takeWhile (fun c => decide (c ≠ sep))).reverse ∨
      ∃ pre, l = pre ++ sep :: (l.reverse.takeWhile (fun c => decide (c ≠ sep))).reverse) := by
  constructor
  · intro hmem
    rw [List.mem_reverse] at hmem
    have := List.mem_takeWhile_imp hmem
    simp at this
  · have hsplit := List.takeWhile_append_dropWhile (fun c => decide (c ≠ sep)) l.reverse
    cases hd : l.reverse.dropWhile (fun c => decide (c ≠ sep)) with
    | nil =>
      left
      rw [hd, List.append_nil] at hsplit
      rw [hsplit, List.reverse_reverse]
    | cons x xs =>
      right
      have hx : x = sep := by
        have := List.head_dropWhile_not (fun c => decide (c ≠ sep)) l.reverse
          (by rw [hd]; simp)
        simp only [hd, List.head_cons] at this
        simpa using this
      subst hx
      refine ⟨xs.reverse, ?_⟩
      rw [hd] at hsplit
      have := congrArg List.reverse hsplit
      rw [List.reverse_reverse, List.reverse_append, List.reverse_cons,
        List.append_assoc] at this
      simpa using this.symm

theorem splitChars_getLast (sep : Char) (l : List Char) :
    (splitChars sep l).getLast? = some (l.reverse.takeWhile (fun c => decide (c ≠ sep))).reverse := by
  obtain ⟨hnot, hl | ⟨pre, hl⟩⟩ := trailing_decomp sep l
  · rw [← hl] at hnot ⊢
    rw [splitChars_of_not_mem sep l hnot]
    rfl
  · generalize (l.reverse.takeWhile (fun c => decide (c ≠ sep))).reverse = seg at hnot hl
    subst hl
    rw [splitChars_append, splitChars_of_not_mem sep seg hnot]
    simp

/-- The last part of `id.split('-')` is the trailing segment of the reference. -/
theorem split_last (id : String) :
    (split id '-').getD ((split id '-').length - 1) ""
      = InvoiceIdGenerator.trailingSegment id := by
  have h := splitChars_getLast '-' id.data
  unfold split InvoiceIdGenerator.trailingSegment
  rw [List.getD_eq_getElem?_getD, ← List.getLast?_eq_getElem?, List.getLast?_map, h]
  rfl

theorem split_length_pos (id : String) : (split id '-').length > 0 := by
  unfold split
  rw [List.length_map]
  exact List.length_pos.mpr (splitChars_ne_nil _ _)

/-! ### The id generator against its reference -/

theorem stripSign_fst (l : List Char) (h : (stripSign l).1 = true) : '-' ∈ l := by
  unfold stripSign at h
  split at h
  · simp
  · simp at h
  · simp at h

/-- A string without `-` reads as a non-negative integer. -/
theorem parseIntValue_nonneg (s : List Char) (hs : '-' ∉ s) (z : Int)
    (h : parseIntValue s = some z) : 0 ≤ z := by
  unfold parseIntValue at h
  simp only at h
  split at h
  · cases h
  · have hsign : (stripSign (s.dropWhile isStrWhiteSpaceChar)).1 = false := by
      by_contra hcon
      have hmem := stripSign_fst _ (by simpa using hcon)
      exact hs ((List.dropWhile_sublist _).subset hmem)
    rw [hsign] at h
    injection h with h
    rw [← h]
    simp [JSNumber.signed]

theorem trailingSegment_no_dash (id : String) : '-' ∉ (trailingSegment id).data :=
  (trailing_decomp '-' id.data).1

theorem maxNumStep_finite (m : Int) (inv : InvoiceRecord)
    (hb : ∀ z, parseIntValue (trailingSegment inv.id).data = some z → z < 2 ^ 53) :
    maxNumStep (JSNumber.finite m 0) inv
      = JSNumber.finite
          (match parseIntValue (trailingSegment inv.id).data with
            | none => m
            | some z => max m z) 0 := by
  unfold maxNumStep
  simp only [split_length_pos, if_true, split_last, parseInt]
  cases hp : parseIntValue (trailingSegment inv.id).data with
  | none => simp [JSNumber.isNaN]
  | some z =>
    have h0 : 0 ≤ z := parseIntValue_nonneg _ (trailingSegment_no_dash inv.id) z hp
    have h1 : z ≤ 2 ^ 53 := le_of_lt (hb z hp)
    simp only [ofInt_of_le z h0 h1, JSNumber.isNaN, gt_finite, Bool.not_false, Bool.true_and]
    by_cases hlt : m < z
    · simp [hlt, max_eq_right (le_of_lt hlt)]
    · simp [hlt, max_eq_left (not_lt.mp hlt)]

theorem parsedSuffixes_cons (id : String) (ids : List String) :
    parsedSuffixes (id :: ids)
      = match parseIntValue (trailingSegment id).data with
        | none => parsedSuffixes ids
        | some z => z :: parsedSuffixes ids := by
  unfold parsedSuffixes
  rw [List.filterMap_cons]
  cases parseIntValue (trailingSegment id).data <;> rfl

theorem foldl_maxNumStep (invoices : List InvoiceRecord) (m : Int)
    (hb : ∀ z ∈ parsedSuffixes (invoices.map (fun inv => inv.id)), z < 2 ^ 53) :
    invoices.foldl maxNumStep (JSNumber.finite m 0)
      = JSNumber.finite ((parsedSuffixes (invoices.map (fun inv => inv.id))).foldl max m) 0 := by
  induction invoices generalizing m with
  | nil => rfl
  | cons inv invs ih =>
    rw [List.map_cons, parsedSuffixes_cons] at hb ⊢
    rw [List.foldl_cons]
    cases hp : parseIntValue (trailingSegment inv.id).data with
    | none =>
      rw [hp] at hb
      rw [maxNumStep_finite m inv (by intro z hz; rw [hp] at hz; cases hz), hp]
      exact ih m hb
    | some z =>
      rw [hp] at hb
      simp only at hb ⊢
      rw [maxNumStep_finite m inv
        (by intro w hw; rw [hp] at hw; injection hw with hw; subst hw; exact hb _ (by simp)), hp]
      simp only [List.foldl_cons]
      exact ih (max m z) (fun w hw => hb w (List.mem_cons_of_mem _ hw))

theorem parsedSuffixes_nonneg (ids : List String) : ∀ z ∈ parsedSuffixes ids, 0 ≤ z := by
  intro z hz
  unfold parsedSuffixes at hz
  rw [List.mem_filterMap] at hz
  obtain ⟨id, _, hp⟩ := hz
  exact parseIntValue_nonneg _ (trailingSegment_no_dash id) z hp

theorem foldl_max_ge (l : List Int) (m : Int) :
    m ≤ l.foldl max m ∧ ∀ z ∈ l, z ≤ l.foldl max m := by
  induction l generalizing m with
  | nil => simp
  | cons x xs ih =>
    rw [List.foldl_cons]
    obtain ⟨h1, h2⟩ := ih (max m x)
    refine ⟨le_trans (le_max_left m x) h1, ?_⟩
    intro z hz
    rcases List.mem_cons.mp hz with rfl | hz
    · exact le_trans (le_max_right m z) h1
    · exact h2 z hz

theorem foldl_max_lt (l : List Int) (m b : Int) (hm : m < b) (hl : ∀ z ∈ l, z < b) :
    l.foldl max m < b := by
  induction l generalizing m with
  | nil => exact hm
  | cons x xs ih =>
    rw [List.foldl_cons]
    exact ih (max m x) (max_lt hm (hl x (by simp))) (fun z hz => hl z (List.mem_cons_of_mem _ hz))

/-- The largest parsed value of the reference is the running maximum from 0. -/
theorem maxNum_eq_foldl (ids : List String) :
    maxNum ids = (parsedSuffixes ids).foldl max 0 := by
  unfold maxNum
  have hnn := parsedSuffixes_nonneg ids
  cases hl : parsedSuffixes ids with
  | nil => rfl
  | cons x xs =>
    rw [List.max?_cons', Option.getD_some, List.foldl_cons]
    have : 0 ≤ x := hnn x (by rw [hl]; simp)
    rw [max_eq_right this]

open InvoiceIdGenerator

theorem padStart_mk (l : List Char) :
    padStart (String.mk l) 2 '0' = String.mk (zeroPad l) := rfl

theorem yy_eq (today : JSDate) :
    sliceLast (numberToString (JSNumber.ofInt today.fullYear)) 2
      = String.mk (yearDigits today.fullYear) := by
  have hle : ((today.fullYear : Nat) : Int) ≤ 2 ^ 53 := by
    have := today.fullYear_le
    have h2 : (275760 : Int) ≤ 2 ^ 53 := by norm_num
    omega
  rw [ofInt_of_le _ (Int.ofNat_nonneg _) hle, numberToString_of_le _ (Int.ofNat_nonneg _) hle]
  rfl

theorem mm_eq (today : JSDate) :
    padStart (numberToString ((JSNumber.ofInt (today.month.val : Nat)).add JSNumber.one)) 2 '0'
      = String.mk (zeroPad (decimal (today.month.val + 1))) := by
  have hm : today.month.val < 12 := today.month.isLt
  have hle : ((today.month.val : Nat) : Int) ≤ 2 ^ 53 := by
    have h2 : (12 : Int) ≤ 2 ^ 53 := by norm_num
    omega
  have hle1 : ((today.month.val : Nat) : Int) + 1 ≤ 2 ^ 53 := by
    have h2 : (13 : Int) ≤ 2 ^ 53 := by norm_num
    omega
  rw [ofInt_of_le _ (Int.ofNat_nonneg _) hle, add_one_of_le _ (Int.ofNat_nonneg _) hle1,
    numberToString_of_le _ (by omega) hle1, padStart_mk]
  rfl

/-- With every parsed suffix below `2 ^ 53`, the script computes the id of the
reference. -/
theorem nextInvoiceId_eq_next (invoices : List InvoiceRecord) (today : JSDate)
    (hb : ∀ z ∈ parsedSuffixes (invoices.map (fun inv => inv.id)), z < 2 ^ 53) :
    nextInvoiceId invoices today = next (invoices.map (fun inv => inv.id)) today := by
  cases hinv : invoices with
  | nil => rfl
  | cons inv invs =>
    rw [← hinv]
    have hne : invoices ≠ [] := by rw [hinv]; simp
    have hlen : ¬ invoices.length = 0 := fun h => hne (List.length_eq_zero.mp h)
    have hmap : ¬ invoices.map (fun inv => inv.id) = [] := by
      rw [hinv]; simp
    unfold nextInvoiceId next
    simp only [hlen, hmap, if_false]
    have hM0 : 0 ≤ maxNum (invoices.map (fun inv => inv.id)) := by
      rw [maxNum_eq_foldl]; exact (foldl_max_ge _ 0).1
    have hM1 : maxNum (invoices.map (fun inv => inv.id)) < 2 ^ 53 := by
      rw [maxNum_eq_foldl]; exact foldl_max_lt _ 0 _ (by norm_num) hb
    have hzero : JSNumber.zero = JSNumber.finite 0 0 := rfl
    rw [yy_eq, mm_eq, hzero, foldl_maxNumStep invoices 0 hb, ← maxNum_eq_foldl,
      add_one_of_le _ hM0 (by omega), numberToString_of_le _ (by omega) (by omega),
      padStart_mk]
    have hdec : intDecimal (maxNum (invoices.map (fun inv => inv.id)) + 1)
        = decimal (maxNum (invoices.map (fun inv => inv.id)) + 1).natAbs := by
      unfold intDecimal
      rw [if_neg (by omega)]
    rw [hdec]
    apply String.ext
    simp only [String.data_append, List.append_assoc, List.cons_append, List.nil_append]

/-! ### Decimal digit strings -/

theorem digitChar_toNat (d : Nat) (h : d < 10) : (Nat.digitChar d).toNat = 48 + d := by
  interval_cases d <;> rfl

theorem digitsValue_append (ds : List Nat) (x : Nat) :
    digitsValue 10 (ds ++ [x]) = digitsValue 10 ds * 10 + x := by
  simp [digitsValue, List.foldl_append]

theorem toDigitsCore_spec (fuel n : Nat) (acc : List Char) (h : n < fuel) :
    ∃ ds : List Nat, ds ≠ [] ∧ (∀ d ∈ ds, d < 10) ∧
      Nat.toDigitsCore 10 fuel n acc = ds.map Nat.digitChar ++ acc ∧ digitsValue 10 ds = n := by
  induction fuel generalizing n acc with
  | zero => omega
  | succ f ih =>
    unfold Nat.toDigitsCore
    by_cases h0 : n / 10 = 0
    · simp only [h0, if_true]
      refine ⟨[n % 10], by simp, ?_, by simp, ?_⟩
      · intro d hd
        simp only [List.mem_singleton] at hd
        omega
      · simp only [digitsValue, List.foldl_cons, List.foldl_nil]
        omega
    · simp only [h0, if_false]
      obtain ⟨ds, hne, hlt, heq, hval⟩ := ih (n / 10) (Nat.digitChar (n % 10) :: acc) (by omega)
      refine ⟨ds ++ [n % 10], by simp, ?_, ?_, ?_⟩
      · intro d hd
        rcases List.mem_append.mp hd with hd | hd
        · exact hlt d hd
        · simp only [List.mem_singleton] at hd
          omega
      · rw [heq]; simp
      · rw [digitsValue_append, hval]
        omega

theorem decimal_spec (n : Nat) :
    ∃ ds : List Nat, ds ≠ [] ∧ (∀ d ∈ ds, d < 10) ∧
      decimal n = ds.map Nat.digitChar ∧ digitsValue 10 ds = n := by
  obtain ⟨ds, h1, h2, h3, h4⟩ := toDigitsCore_spec (n + 1) n [] (by omega)
  exact ⟨ds, h1, h2, by simpa [decimal, Nat.toDigits] using h3, h4⟩

open InvoiceIdGenerator

theorem isDigit_digitChar (d : Nat) (h : d < 10) : IsDigit (Nat.digitChar d) := by
  unfold IsDigit
  rw [digitChar_toNat d h]
  omega

theorem digitValue_digitChar (d : Nat) (h : d < 10) :
    digitValue 10 (Nat.digitChar d) = some d := by
  interval_cases d <;> rfl

theorem isDigit_ne_dash (c : Char) (h : IsDigit c) : c ≠ '-' := by
  intro hc
  subst hc
  unfold IsDigit at h
  have : ('-' : Char).toNat = 45 := rfl
  omega

theorem isDigit_not_space (c : Char) (h : IsDigit c) : isStrWhiteSpaceChar c = false := by
  unfold IsDigit at h
  unfold isStrWhiteSpaceChar
  simp only [Bool.or_eq_false_iff, Bool.and_eq_false_imp, decide_eq_false_iff_not,
    decide_eq_true_eq]
  omega

theorem digitsValue_replicate_zero (k : Nat) (ds : List Nat) :
    digitsValue 10 (List.replicate k 0 ++ ds) = digitsValue 10 ds := by
  induction k with
  | zero => rfl
  | succ k ih =>
    rw [List.replicate_succ, List.cons_append]
    unfold digitsValue at ih ⊢
    rw [List.foldl_cons]
    simpa using ih

/-- A digit list as characters, zero-padded: what the generator writes for a number. -/
theorem zeroPad_decimal_spec (n : Nat) :
    ∃ ds : List Nat, ds ≠ [] ∧ (∀ d ∈ ds, d < 10) ∧
      zeroPad (decimal n) = ds.map Nat.digitChar ∧ digitsValue 10 ds = n := by
  obtain ⟨ds, h1, h2, h3, h4⟩ := decimal_spec n
  refine ⟨List.replicate (2 - (decimal n).length) 0 ++ ds, by simp [h1], ?_, ?_, ?_⟩
  · intro d hd
    rcases List.mem_append.mp hd with hd | hd
    · have := List.eq_of_mem_replicate hd
      omega
    · exact h2 d hd
  · unfold zeroPad
    rw [h3, List.map_append, List.map_replicate]
    rfl
  · rw [digitsValue_replicate_zero, h4]

theorem leadingDigits_map (ds : List Nat) (h : ∀ d ∈ ds, d < 10) :
    leadingDigits 10 (ds.map Nat.digitChar) = ds := by
  induction ds with
  | nil => rfl
  | cons d ds ih =>
    rw [List.map_cons, leadingDigits, digitValue_digitChar d (h d (by simp))]
    simp only
    rw [ih (fun x hx => h x (List.mem_cons_of_mem _ hx))]

/-- Reading back a digit string gives its value. -/
theorem parseIntValue_digits (ds : List Nat) (hne : ds ≠ []) (h : ∀ d ∈ ds, d < 10) :
    parseIntValue (ds.map Nat.digitChar) = some (digitsValue 10 ds : Int) := by
  cases ds with
  | nil => exact absurd rfl hne
  | cons d rest =>
    have hd : d < 10 := h d (by simp)
    have hdig : IsDigit (Nat.digitChar d) := isDigit_digitChar d hd
    have hdrop : (List.map Nat.digitChar (d :: rest)).dropWhile isStrWhiteSpaceChar
        = List.map Nat.digitChar (d :: rest) := by
      rw [List.map_cons, List.dropWhile_cons_of_neg]
      simp [isDigit_not_space _ hdig]
    have hsign : stripSign (List.map Nat.digitChar (d :: rest))
        = (false, List.map Nat.digitChar (d :: rest)) := by
      rw [List.map_cons]
      unfold stripSign
      split
      · next heq =>
        injection heq with h1 _
        exact absurd h1 (isDigit_ne_dash _ hdig)
      · next heq =>
        injection heq with h1 _
        unfold IsDigit at hdig
        rw [h1] at hdig
        have : ('+' : Char).toNat = 43 := rfl
        omega
      · rfl
    have hhex : stripHexMarker (List.map Nat.digitChar (d :: rest))
        = (10, List.map Nat.digitChar (d :: rest)) := by
      cases rest with
      | nil =>
        rw [List.map_cons, List.map_nil]
        unfold stripHexMarker
        split
        · next heq => simp at heq
        · next heq => simp at heq
        · rfl
      | cons e rest2 =>
        have he : IsDigit (Nat.digitChar e) := isDigit_digitChar e (h e (by simp))
        rw [List.map_cons, List.map_cons]
        unfold stripHexMarker
        split
        · next heq =>
          injection heq with _ h2
          injection h2 with h2 _
          unfold IsDigit at he
          rw [h2] at he
          have : ('x' : Char).toNat = 120 := rfl
          omega
        · next heq =>
          injection heq with _ h2
          injection h2 with h2 _
          unfold IsDigit at he
          rw [h2] at he
          have : ('X' : Char).toNat = 88 := rfl
          omega
        · rfl
    unfold parseIntValue
    simp only [hdrop, hsign, hhex, leadingDigits_map _ h]
    simp [JSNumber.signed]

open InvoiceIdGenerator

theorem trailingSegment_append (pre seg : List Char) (h : '-' ∉ seg) :
    trailingSegment (String.mk (pre ++ '-' :: seg)) = String.mk seg := by
  unfold trailingSegment
  simp only [List.reverse_append, List.reverse_cons, List.append_assoc, List.singleton_append]
  rw [List.takeWhile_append_of_pos, List.takeWhile_cons_of_neg (by simp), List.append_nil,
    List.reverse_reverse]
  intro a ha
  rw [List.mem_reverse] at ha
  have : a ≠ '-' := fun hc => h (hc ▸ ha)
  simpa using this

/-- The id of the reference ends in a segment that reads back as the largest parsed
suffix plus one. -/
theorem next_suffix (ids : List String) (today : JSDate) (hne : ids ≠ []) :
    parseIntValue (trailingSegment (next ids today)).data = some (maxNum ids + 1) := by
  have hM0 : 0 ≤ maxNum ids := by
    rw [maxNum_eq_foldl]; exact (foldl_max_ge _ 0).1
  obtain ⟨ds, h1, h2, h3, h4⟩ := zeroPad_decimal_spec (maxNum ids + 1).natAbs
  have hdec : intDecimal (maxNum ids + 1) = decimal (maxNum ids + 1).natAbs := by
    unfold intDecimal
    rw [if_neg (by omega)]
  have hnodash : '-' ∉ ds.map Nat.digitChar := by
    intro hmem
    obtain ⟨d, hd, hc⟩ := List.mem_map.mp hmem
    exact isDigit_ne_dash _ (isDigit_digitChar d (h2 d hd)) hc
  unfold next
  rw [if_neg hne, hdec, h3, trailingSegment_append _ _ hnodash]
  rw [parseIntValue_digits ds h1 h2, h4]
  congr 1
  omega

/-- The id computed depends on the ids of the records only, which `JSON` keeps. -/
theorem nextInvoiceId_throughJSON (invoices : List InvoiceRecord) (today : JSDate) :
    nextInvoiceId (invoices.map InvoiceRecord.throughJSON) today
      = nextInvoiceId invoices today := by
  have hfold : ∀ (l : List InvoiceRecord) (m : JSNumber),
      (l.map InvoiceRecord.throughJSON).foldl maxNumStep m = l.foldl maxNumStep m := by
    intro l
    induction l with
    | nil => intro m; rfl
    | cons inv invs ih =>
      intro m
      rw [List.map_cons, List.foldl_cons, List.foldl_cons, ih]
      rfl
  unfold nextInvoiceId
  rw [List.length_map, hfold]

theorem autoGenerateNextId_stored (invoices : List InvoiceRecord) (today : JSDate) :
    autoGenerateNextId false (some (StoredText.json invoices)) today
      = Except.ok (nextInvoiceId invoices today) := by
  rw [← nextInvoiceId_throughJSON]
  rfl

/-- With every parsed suffix below `2 ^ 53`, the id of the script is not that of any
stored record. -/
theorem nextInvoiceId_fresh (invoices : List InvoiceRecord) (today : JSDate)
    (hne : invoices ≠ [])
    (hb : ∀ z ∈ parsedSuffixes (invoices.map (fun inv => inv.id)), z < 2 ^ 53) :
    ∀ inv ∈ invoices, inv.id ≠ nextInvoiceId invoices today := by
  intro inv hmem heq
  rw [nextInvoiceId_eq_next invoices today hb] at heq
  have hids : invoices.map (fun inv => inv.id) ≠ [] := by
    intro h; exact hne (List.map_eq_nil_iff.mp h)
  have hparse := next_suffix (invoices.map (fun inv => inv.id)) today hids
  rw [← heq] at hparse
  have hin : maxNum (invoices.map (fun inv => inv.id)) + 1
      ∈ parsedSuffixes (invoices.map (fun inv => inv.id)) := by
    unfold parsedSuffixes
    rw [List.mem_filterMap]
    exact ⟨inv.id, List.mem_map_of_mem _ hmem, hparse⟩
  have hle := (foldl_max_ge (parsedSuffixes (invoices.map (fun inv => inv.id))) 0).2 _ hin
  rw [← maxNum_eq_foldl] at hle
  omega

/-- C1 (as amended). `autoGenerateNextId` computes the reference
`InvoiceIdGenerator.next`: on an empty store it yields the default "BL-25-12-01" at every
date, and on every stored collection whose parsed trailing numbers are all below `2 ^ 53`
it yields, at every date, the id of the reference. -/
theorem autoGenerateNextId_eq_reference :
    (∀ (readDenied : Bool) (today : JSDate),
      autoGenerateNextId readDenied none today = Except.ok "BL-25-12-01" ∧
      autoGenerateNextId readDenied (some (StoredText.json [])) today
        = Except.ok "BL-25-12-01" ∧
      next [] today = "BL-25-12-01") ∧
    (∀ (invoices : List InvoiceRecord) (today : JSDate),
      (∀ z ∈ parsedSuffixes (invoices.map (fun inv => inv.id)), z < 2 ^ 53) →
      autoGenerateNextId false (some (StoredText.json invoices)) today
        = Except.ok (next (invoices.map (fun inv => inv.id)) today)) := by
  refine ⟨?_, ?_⟩
  · intro readDenied today
    cases readDenied <;> exact ⟨rfl, rfl, rfl⟩
  · intro invoices today hb
    rw [autoGenerateNextId_stored, nextInvoiceId_eq_next invoices today hb]

theorem autoGenerateNextId_eq_reference_witness :
    autoGenerateNextId false
        (some (StoredText.json [recordWithId "BL-25-12-07", recordWithId "X-1-3"])) december2025
      = Except.ok (next ["BL-25-12-07", "X-1-3"] december2025) ∧
    next ["BL-25-12-07", "X-1-3"] december2025 = "BL-25-12-08" ∧
    autoGenerateNextId false (some (StoredText.json [recordWithId "BL-24-01-99"])) june2025
      = Except.ok (next ["BL-24-01-99"] june2025) ∧
    next ["BL-24-01-99"] june2025 = "BL-25-06-100" :=
  ⟨autoGenerateNextId_eq_reference.2 [recordWithId "BL-25-12-07", recordWithId "X-1-3"]
      december2025 (by decide),
    by decide,
    autoGenerateNextId_eq_reference.2 [recordWithId "BL-24-01-99"] june2025 (by decide),
    by decide⟩

/-- C1 as stated fails: with the stored id "BL-24-01-9007199254740992" the largest
suffix is `2 ^ 53`, where adding one is lost to rounding; the script yields
"BL-25-06-9007199254740992", the reference "BL-25-06-9007199254740993". -/
theorem autoGenerateNextId_ne_reference :
    autoGenerateNextId false
        (some (StoredText.json [recordWithId "BL-24-01-9007199254740992"])) june2025
      = Except.ok "BL-25-06-9007199254740992" ∧
    next ["BL-24-01-9007199254740992"] june2025 = "BL-25-06-9007199254740993" ∧
    autoGenerateNextId false
        (some (StoredText.json [recordWithId "BL-24-01-9007199254740992"])) june2025
      ≠ Except.ok (next ["BL-24-01-9007199254740992"] june2025) := by
  refine ⟨rfl, by decide, ?_⟩
  intro h
  have h1 : autoGenerateNextId false
      (some (StoredText.json [recordWithId "BL-24-01-9007199254740992"])) june2025
      = Except.ok "BL-25-06-9007199254740992" := rfl
  have h2 : next ["BL-24-01-9007199254740992"] june2025 = "BL-25-06-9007199254740993" := by
    decide
  rw [h1, h2] at h
  injection h with h
  exact absurd h (by decide)

/-- C2 (as amended). For every non-empty stored collection whose parsed trailing numbers
are all below `2 ^ 53`, and every date, the id `autoGenerateNextId` produces differs from
the id of every stored record. -/
theorem autoGenerateNextId_no_collision (invoices : List InvoiceRecord) (today : JSDate)
    (hne : invoices ≠ [])
    (hb : ∀ z ∈ parsedSuffixes (invoices.map (fun inv => inv.id)), z < 2 ^ 53) :
    ∃ newId, autoGenerateNextId false (some (StoredText.json invoices)) today
        = Except.ok newId ∧
      ∀ inv ∈ invoices, inv.id ≠ newId :=
  ⟨nextInvoiceId invoices today, autoGenerateNextId_stored invoices today,
    nextInvoiceId_fresh invoices today hne hb⟩

theorem autoGenerateNextId_no_collision_witness :
    ∃ newId, autoGenerateNextId false
        (some (StoredText.json [recordWithId "BL-25-12-08", recordWithId "X-1-3"])) december2025
        = Except.ok newId ∧
      ∀ inv ∈ [recordWithId "BL-25-12-08", recordWithId "X-1-3"], inv.id ≠ newId :=
  autoGenerateNextId_no_collision [recordWithId "BL-25-12-08", recordWithId "X-1-3"]
    december2025 (by simp) (by decide)

/-- C2 as stated fails: with the single stored id "BL-25-06-9007199254740992", in June
2025, the generated id is that very id. -/
theorem autoGenerateNextId_collision :
    autoGenerateNextId false
        (some (StoredText.json [recordWithId "BL-25-06-9007199254740992"])) june2025
      = Except.ok (recordWithId "BL-25-06-9007199254740992").id :=
  rfl

end BrandLift
